import Mathlib

/-!
Spoor runtime: circular buffer slice and flush queue.

A shallow embedding of `spoor/runtime/buffer/unowned_buffer_slice.h` and
`spoor/runtime/flush_queue/flush_queue.cc`, followed by the properties proved
about them.

Storage is modelled at the level of element addresses: a `std::span<T>` is a
pair (address of the first element, element count) and an iterator into it is
an element address.  The memory the span points into is carried along with the
slice so that `Push` can be read statement by statement.
-/

namespace spoor.runtime.buffer

/-- Element-addressed storage: `mem a` is the element stored at address `a`. -/
abbrev Memory (T : Type) := Nat → T

/-- The store `*a = v`. -/
def Memory.write {T : Type} (mem : Memory T) (a : Nat) (v : T) : Memory T :=
  fun x => if x = a then v else mem x

/-- A `std::span<T>`: the address of its first element and its element count.
A span built from `nullptr` is `⟨0, 0⟩`. -/
structure Span where
  data : Nat
  size : Nat
deriving DecidableEq

/-- Iterator `span.begin()`. -/
def Span.begin_ (s : Span) : Nat := s.data

/-- Iterator `span.end()`. -/
def Span.end_ (s : Span) : Nat := s.data + s.size

/-- The elements a span views in a given memory, first to last. -/
def Span.read {T : Type} (mem : Memory T) (s : Span) : List T :=
  (List.range s.size).map (fun k => mem (s.data + k))

/-- Class `UnownedBufferSlice<T>`: the three data members `buffer_`,
`insertion_iterator_`, `size_`, together with the borrowed memory that
`buffer_` points into. -/
structure UnownedBufferSlice (T : Type) where
  memory : Memory T
  buffer_ : Span
  insertion_iterator_ : Nat
  size_ : Nat

namespace UnownedBufferSlice

variable {T : Type}

/-- Constructor `UnownedBufferSlice(std::span<T> buffer)`:
`buffer_{buffer}, insertion_iterator_{buffer_.begin()}, size_{0}`. -/
def ctor (memory : Memory T) (buffer : Span) : UnownedBufferSlice T :=
  { memory := memory, buffer_ := buffer, insertion_iterator_ := buffer.begin_, size_ := 0 }

/-- Method `Size()`: `return size_;`. -/
def Size (s : UnownedBufferSlice T) : Nat := s.size_

/-- Method `Capacity()`: `return buffer_.size();`. -/
def Capacity (s : UnownedBufferSlice T) : Nat := s.buffer_.size

/-- Method `Empty()`: `return Size() == 0;`. -/
def Empty (s : UnownedBufferSlice T) : Bool := s.Size == 0

/-- Method `Full()`: `return Capacity() <= Size();`. -/
def Full (s : UnownedBufferSlice T) : Bool := decide (s.Capacity ≤ s.Size)

/-- Method `Push(item)` (both overloads have the same body up to `std::move`):
store through the insertion iterator, increment it, reset it to `begin()` when
it reached `end()`, then `size_ = std::min(size_ + 1, Capacity())`.  This is
the effect of the four statements on the flat memory, wherever the iterator
points; whether the store lands on an element of the span is `storeInBounds`,
and `PushChecked` is the call with that made explicit. -/
def Push (s : UnownedBufferSlice T) (item : T) : UnownedBufferSlice T :=
  let memory := s.memory.write s.insertion_iterator_ item
  let it := s.insertion_iterator_ + 1
  let it := if it = s.buffer_.end_ then s.buffer_.begin_ else it
  { memory := memory, buffer_ := s.buffer_, insertion_iterator_ := it,
    size_ := min (s.size_ + 1) s.Capacity }

/-- Method `Clear()`: `insertion_iterator_ = buffer_.begin(); size_ = 0;`. -/
def Clear (s : UnownedBufferSlice T) : UnownedBufferSlice T :=
  { s with insertion_iterator_ := s.buffer_.begin_, size_ := 0 }

/-- Method `ContiguousMemoryChunks()`.  `std::distance(a, b)` is `b - a`; in the
branch that computes it the iterator lies between `begin` and `end` for every
state built by the constructor, `Push` and `Clear`. -/
def ContiguousMemoryChunks (s : UnownedBufferSlice T) : List Span :=
  if s.Empty then []
  else
    let begin_ := s.buffer_.begin_
    let end_ := s.buffer_.end_
    if !s.Full || s.insertion_iterator_ == begin_ then [⟨begin_, s.Size⟩]
    else
      let first_chunk : Span := ⟨s.insertion_iterator_, end_ - s.insertion_iterator_⟩
      let second_chunk : Span := ⟨begin_, s.insertion_iterator_ - begin_⟩
      [first_chunk, second_chunk]

/-- Method `WillWrapOnNextPush()`:
`return Capacity() == 0 || next(insertion_iterator_) == buffer_.end();`. -/
def WillWrapOnNextPush (s : UnownedBufferSlice T) : Bool :=
  s.Capacity == 0 || s.insertion_iterator_ + 1 == s.buffer_.end_

/-- A sequence of `Push` calls, in order. -/
def pushAll (s : UnownedBufferSlice T) (items : List T) : UnownedBufferSlice T :=
  items.foldl Push s

/-- The contents of the chunks returned by `ContiguousMemoryChunks`, read from
the borrowed memory and concatenated in the order returned. -/
def chunkContents (s : UnownedBufferSlice T) : List T :=
  (s.ContiguousMemoryChunks.map (Span.read s.memory)).flatten

/-- A mutating call on a slice. -/
inductive Op (T : Type) where
  | push (item : T)
  | clear

/-- Perform one mutating call. -/
def step (s : UnownedBufferSlice T) : Op T → UnownedBufferSlice T
  | .push item => s.Push item
  | .clear => s.Clear

/-- Perform a sequence of mutating calls, in order. -/
def run (s : UnownedBufferSlice T) (ops : List (Op T)) : UnownedBufferSlice T :=
  ops.foldl step s

/-- Whether the store `*insertion_iterator_ = item` of `Push` lands on an
element of the span: an iterator can be dereferenced exactly when it lies in
`[begin(), end())`, which no iterator of a span of capacity 0 does. -/
def storeInBounds (s : UnownedBufferSlice T) : Bool :=
  decide (s.buffer_.begin_ ≤ s.insertion_iterator_ ∧ s.insertion_iterator_ < s.buffer_.end_)

/-- The call `Push(item)` with the validity of its store made explicit: `none`
when the store goes through an iterator outside the span, where the source has
undefined behaviour (a null dereference on the null span); otherwise the state
that `Push` produces. -/
def PushChecked (s : UnownedBufferSlice T) (item : T) : Option (UnownedBufferSlice T) :=
  if s.storeInBounds then some (s.Push item) else none

/-- A sequence of `Push` calls, in order; `none` as soon as one of them stores
outside the span. -/
def pushAllChecked : UnownedBufferSlice T → List T → Option (UnownedBufferSlice T)
  | s, [] => some s
  | s, item :: items =>
    match s.PushChecked item with
    | none => none
    | some s1 => pushAllChecked s1 items

/-- One mutating call, with the store of `Push` checked. -/
def stepChecked (s : UnownedBufferSlice T) : Op T → Option (UnownedBufferSlice T)
  | .push item => s.PushChecked item
  | .clear => some s.Clear

/-- A sequence of mutating calls, in order; `none` as soon as a `Push` stores
outside the span. -/
def runChecked : UnownedBufferSlice T → List (Op T) → Option (UnownedBufferSlice T)
  | s, [] => some s
  | s, op :: ops =>
    match s.stepChecked op with
    | none => none
    | some s1 => runChecked s1 ops

/-- What is known about a slice after the items `vs` were pushed into a fresh
slice built over the span `⟨base, C⟩` of the memory `mem`. -/
structure AfterPushes (mem : Memory T) (base C : Nat) (vs : List T)
    (s : UnownedBufferSlice T) : Prop where
  buffer : s.buffer_ = ⟨base, C⟩
  iter : s.insertion_iterator_ = base + vs.length % C
  size : s.size_ = min vs.length C
  stored : 0 < C → ∀ k x, vs[k]? = some x → vs.length ≤ k + C →
    s.memory (base + k % C) = x
  frame : 0 < C → ∀ a, (a < base ∨ base + min vs.length C ≤ a) → s.memory a = mem a

end UnownedBufferSlice

end spoor.runtime.buffer


namespace spoor.runtime.flush_queue

/-- The fields of `FlushQueue::Options` that the queue logic reads.  The clocks
and the trace writer are not stored: every clock reading and every result of
`TraceWriter::Write` is an explicit input of the operation that consumes it.
Time points and durations are nanosecond counts. -/
structure Options where
  trace_file_path : String
  buffer_retention_duration : Int
  session_id : Nat
  max_buffer_flush_attempts : Int
deriving DecidableEq

/-- Struct `FlushInfo`: a buffer with its enqueue time, the hash of the enqueueing
thread and the number of retries left. -/
structure FlushInfo (Buffer : Type) where
  buffer : Buffer
  flush_timestamp : Int
  thread_id : Nat
  remaining_flush_attempts : Int
deriving DecidableEq

/-- Enumeration `FlushQueue::State`. -/
inductive State where
  | kStopped
  | kRunning
  | kDraining
deriving DecidableEq

/-- Class `FlushQueue`: its data members, with `queue_` listed front first.
`written_` is the record kept on behalf of `*options_.trace_writer`: the
entries whose buffer was handed to `Write`, oldest call first. -/
structure FlushQueue (Buffer : Type) where
  options_ : Options
  queue_ : List (FlushInfo Buffer)
  flush_timestamp_ : Int
  running_ : Bool
  draining_ : Bool
  written_ : List (FlushInfo Buffer)
deriving DecidableEq

namespace FlushQueue

variable {Buffer : Type}

/-- Constructor: `queue_{}`, `flush_timestamp_{options.steady_clock->Now()}`,
`running_{false}`, `draining_{false}`. -/
def ctor (options : Options) (now : Int) : FlushQueue Buffer :=
  { options_ := options, queue_ := [], flush_timestamp_ := now, running_ := false,
    draining_ := false, written_ := [] }

/-- Method `GetState()`. -/
def GetState (q : FlushQueue Buffer) : State :=
  if !q.running_ then State.kStopped
  else if q.draining_ then State.kDraining
  else State.kRunning

/-- Method `Size()`: `return queue_.size();`. -/
def Size (q : FlushQueue Buffer) : Nat := q.queue_.length

/-- Method `Empty()`: `return queue_.empty();`. -/
def Empty (q : FlushQueue Buffer) : Bool := q.queue_.isEmpty

/-- Method `Enqueue(buffer)`: the clock is read first; the call returns without
effect unless the queue is running and not draining; otherwise one entry is
emplaced at the back.  `thread_id` is the hash of the calling thread. -/
def Enqueue (now : Int) (thread_id : Nat) (buffer : Buffer) (q : FlushQueue Buffer) :
    FlushQueue Buffer :=
  let flush_timestamp := now
  if !q.running_ || q.draining_ then q
  else
    let flush_info : FlushInfo Buffer :=
      { buffer := buffer, flush_timestamp := flush_timestamp, thread_id := thread_id,
        remaining_flush_attempts := q.options_.max_buffer_flush_attempts }
    { q with queue_ := q.queue_ ++ [flush_info] }

/-- Method `Flush()`: `flush_timestamp_ = options_.steady_clock->Now();`. -/
def Flush (now : Int) (q : FlushQueue Buffer) : FlushQueue Buffer :=
  { q with flush_timestamp_ := now }

/-- Method `Clear()`: swap `queue_` with an empty queue. -/
def Clear (q : FlushQueue Buffer) : FlushQueue Buffer :=
  { q with queue_ := [] }

/-- The state change of `Run()`: `if (running_.exchange(true)) return;
draining_ = false;` and the worker starts.  The worker itself is
`RunIteration` / `workerLoop`. -/
def Run (q : FlushQueue Buffer) : FlushQueue Buffer :=
  if q.running_ then q else { q with running_ := true, draining_ := false }

/-- The locked lambda at the top of the worker loop:
`if (queue_.empty()) return {}; auto flush_info = std::move(queue_.back());
queue_.pop(); return flush_info;`.
`std::queue::back()` is the most recently emplaced element and
`std::queue::pop()` removes the front one.  `moved b` is the state a buffer
`b` is left in after being moved from; the other three fields are copied by
the move.  Returns the optional entry and the new `queue_`. -/
def pop (moved : Buffer → Buffer) (queue_ : List (FlushInfo Buffer)) :
    Option (FlushInfo Buffer) × List (FlushInfo Buffer) :=
  match queue_.getLast? with
  | none => (none, queue_)
  | some back =>
    let flush_info := back
    let queue_ := queue_.dropLast ++ [{ back with buffer := moved back.buffer }]
    (some flush_info, queue_.tail)

/-- One pass through the body of the worker loop in `Run()`.  `now` is the
reading of `options_.steady_clock->Now()` taken in this pass and `write_ok`
tells whether the `Write` call of this pass, if one is made, succeeds.  The sum
`flush_timestamp + buffer_retention_duration` is taken in the integers: it is
the sum the source forms in its signed 64-bit nanosecond count whenever that
sum fits the count, that is, lies in `[-2^63, 2^63)`. -/
def RunIteration (moved : Buffer → Buffer) (now : Int) (write_ok : Bool)
    (q : FlushQueue Buffer) : FlushQueue Buffer :=
  match pop moved q.queue_ with
  | (none, _) => q
  | (some flush_info, queue_) =>
    let q := { q with queue_ := queue_ }
    let retain : Bool :=
      decide (now < flush_info.flush_timestamp + q.options_.buffer_retention_duration)
    let flush : Bool := decide (flush_info.flush_timestamp ≤ q.flush_timestamp_)
    if retain && !flush then { q with queue_ := q.queue_ ++ [flush_info] }
    else
      let q := { q with written_ := q.written_ ++ [flush_info] }
      if !write_ok && decide (0 < flush_info.remaining_flush_attempts) then
        { q with queue_ := q.queue_ ++
            [{ flush_info with
                remaining_flush_attempts := flush_info.remaining_flush_attempts - 1 }] }
      else q

/-- The worker thread: `while (!draining_.load() || !Empty()) { ... }` followed
by `draining_ = false;`.  Each pass consumes one `(now, write_ok)` input;
`none` means the inputs ran out before the loop ended. -/
def workerLoop (moved : Buffer → Buffer) :
    List (Int × Bool) → FlushQueue Buffer → Option (FlushQueue Buffer)
  | [], q =>
    if !q.draining_ || !q.Empty then none else some { q with draining_ := false }
  | (now, write_ok) :: inputs, q =>
    if !q.draining_ || !q.Empty then workerLoop moved inputs (RunIteration moved now write_ok q)
    else some { q with draining_ := false }

/-- Method `DrainAndStop()`: `if (!running_.load() || draining_.exchange(true)) return;`
then join the worker, then `running_ = false;`.  `inputs` feeds the passes the
worker makes until it is joined. -/
def DrainAndStop (moved : Buffer → Buffer) (inputs : List (Int × Bool))
    (q : FlushQueue Buffer) : Option (FlushQueue Buffer) :=
  if !q.running_ then some q
  else if q.draining_ then some q
  else
    match workerLoop moved inputs { q with draining_ := true } with
    | none => none
    | some q => some { q with running_ := false }

/-- Consecutive passes through the body of the worker loop, one per
`(now, write_ok)` input, without any other call in between. -/
def runPasses (moved : Buffer → Buffer) (inputs : List (Int × Bool))
    (q : FlushQueue Buffer) : FlushQueue Buffer :=
  inputs.foldl (fun q p => RunIteration moved p.1 p.2 q) q

/-- A number of worker passes within which a draining queue empties once no
entry is retained any more: the queue length times one more than the retries
left on the entry at the back. -/
def drainBound (q : FlushQueue Buffer) : Nat :=
  match q.queue_.getLast? with
  | none => 0
  | some back => q.queue_.length * (back.remaining_flush_attempts.toNat + 1)

end FlushQueue

/-- The conversion `%016x` of `absl::StrFormat` applied to a 64-bit unsigned
value: its sixteen hexadecimal digits, most significant first, in lower case. -/
def hex16 (v : Nat) : List Char :=
  (List.range 16).reverse.map (fun i => Nat.digitChar (v / 16 ^ i % 16))

/-- The 64-bit unsigned value as which `%x` prints a signed 64-bit count. -/
def toUnsigned64 (t : Int) : Nat := (t % 2 ^ 64).toNat

/-- The part of `absl::StrFormat` used by the flush queue: ordinary characters
are copied and each `%016x` consumes the next argument. -/
def StrFormatAux : List Char → List Nat → List Char
  | '%' :: '0' :: '1' :: '6' :: 'x' :: rest, arg :: args => hex16 arg ++ StrFormatAux rest args
  | c :: rest, args => c :: StrFormatAux rest args
  | [], _ => []

/-- Function `absl::StrFormat(format, args...)` for formats whose only
conversion is `%016x`. -/
def StrFormat (format : String) (args : List Nat) : String :=
  String.mk (StrFormatAux format.data args)

/-- Operator `/` of `std::filesystem::path` with a relative right-hand side
and `/` as the separator: a separator is inserted unless the left-hand side is
empty or already ends with one. -/
def pathAppend (p name : String) : String :=
  if p.data = [] then name
  else if p.data.getLast? = some '/' then p ++ name
  else p ++ "/" ++ name

namespace FlushQueue

variable {Buffer : Type}

/-- Method `TraceFilePath(flush_info)`.  Time points are nanosecond counts
already, so the `duration_cast` to nanoseconds is the identity. -/
def TraceFilePath (q : FlushQueue Buffer) (flush_info : FlushInfo Buffer) : String :=
  let timestamp := flush_info.flush_timestamp
  let file_name := StrFormat "spoor-%016x-%016x-%016x.trace"
    [q.options_.session_id, flush_info.thread_id, toUnsigned64 timestamp]
  pathAppend q.options_.trace_file_path file_name

end FlushQueue

end spoor.runtime.flush_queue

namespace util.env

/-- The integral overload of `GetEnvOrDefault(key, default_value, get_env)`.
`get_env` returns `none` for a null pointer.  `SimpleAtoi` stands for
`absl::SimpleAtoi`: `some value` when it returns `true` having stored `value`,
`none` when it returns `false`. -/
def GetEnvOrDefault {T : Type} (SimpleAtoi : String → Option T) (key : String)
    (default_value : T) (get_env : String → Option String) : T :=
  match get_env key with
  | none => default_value
  | some user_value =>
    match SimpleAtoi user_value with
    | some value => value
    | none => default_value

end util.env

namespace spoor.instrumentation.filters

/-- Struct `FunctionInfo`. -/
structure FunctionInfo where
  source_file_path : String
  demangled_name : String
  linkage_name : String
  ir_instruction_count : Int
deriving DecidableEq

/-- Enumeration `Filter::Action`. -/
inductive Action where
  | kAllow
  | kBlock
deriving DecidableEq

/-- Struct `Filter`. -/
structure Filter where
  action : Action
  rule_name : Option String
  source_file_path : Option String
  function_demangled_name : Option String
  function_linkage_name : Option String
  function_ir_instruction_count_lt : Option Int
  function_ir_instruction_count_gt : Option Int
deriving DecidableEq

/-- Struct `Filters::InstrumentFunctionResult`. -/
structure InstrumentFunctionResult where
  instrument : Bool
  active_filter_rule_name : Option String
deriving DecidableEq

/-- Class `Filters`: the ordered vector `filters_`. -/
structure Filters where
  filters_ : List Filter
deriving DecidableEq

/-- Modelled from the spec: the body of `Filter::Matches`, which `filters.h`
only declares.  A filter matches when every predicate that is present matches:
the string predicates by equality with the corresponding field, the `lt`
bound when the instruction count is below it and the `gt` bound when the
instruction count is above it. -/
def Filter.Matches (f : Filter) (function_info : FunctionInfo) : Bool :=
  (match f.source_file_path with
    | none => true
    | some path => path == function_info.source_file_path) &&
  (match f.function_demangled_name with
    | none => true
    | some name => name == function_info.demangled_name) &&
  (match f.function_linkage_name with
    | none => true
    | some name => name == function_info.linkage_name) &&
  (match f.function_ir_instruction_count_lt with
    | none => true
    | some bound => decide (function_info.ir_instruction_count < bound)) &&
  (match f.function_ir_instruction_count_gt with
    | none => true
    | some bound => decide (function_info.ir_instruction_count > bound))

/-- Modelled from the spec: the scan of `InstrumentFunction` over the filters
that are left, first to last. -/
def scanFilters : List Filter → FunctionInfo → InstrumentFunctionResult
  | [], _ => { instrument := true, active_filter_rule_name := none }
  | filter :: rest, function_info =>
    if filter.Matches function_info then
      match filter.action with
      | Action.kAllow => { instrument := true, active_filter_rule_name := filter.rule_name }
      | Action.kBlock => { instrument := false, active_filter_rule_name := filter.rule_name }
    else scanFilters rest function_info

/-- Modelled from the spec: the body of `Filters::InstrumentFunction`, which
`filters.h` only declares.  The filters are scanned in order and the first
one that matches decides: `Allow` instruments, `Block` does not, both report
the filter's rule name; without a match the function is instrumented and no
rule name is reported. -/
def Filters.InstrumentFunction (filters : Filters) (function_info : FunctionInfo) :
    InstrumentFunctionResult :=
  scanFilters filters.filters_ function_info

end spoor.instrumentation.filters

namespace spoor.runtime.config

/-- Modelled from the spec: the declaration of `UserOptions`, which lives in
`config.h` and is not among the sources.  The twelve fields are those that
`UserOptions::FromEnv` initialises, in that order; the path is a string, the
flags are booleans and the numeric options are integers. -/
structure UserOptions where
  trace_file_path : String
  session_id : Nat
  thread_event_buffer_capacity : Nat
  max_reserved_event_buffer_slice_capacity : Nat
  max_dynamic_event_buffer_slice_capacity : Nat
  reserved_event_pool_capacity : Nat
  dynamic_event_pool_capacity : Nat
  dynamic_event_slice_borrow_cas_attempts : Nat
  event_buffer_retention_duration_nanoseconds : Int
  max_flush_buffer_to_file_attempts : Int
  flush_event_buffer_when_full : Bool
  flush_event_buffer_immediately_after_flush : Bool
deriving DecidableEq

/-- The function `operator==(const UserOptions& lhs, const UserOptions& rhs)`:
the conjunction of the member comparisons written in `config.cc`, in the order
written there. -/
def operatorEq (lhs rhs : UserOptions) : Bool :=
  lhs.trace_file_path == rhs.trace_file_path &&
  lhs.session_id == rhs.session_id &&
  lhs.thread_event_buffer_capacity == rhs.thread_event_buffer_capacity &&
  lhs.max_reserved_event_buffer_slice_capacity ==
    rhs.max_reserved_event_buffer_slice_capacity &&
  lhs.max_dynamic_event_buffer_slice_capacity ==
    rhs.max_dynamic_event_buffer_slice_capacity &&
  lhs.reserved_event_pool_capacity == rhs.reserved_event_pool_capacity &&
  lhs.dynamic_event_pool_capacity == rhs.dynamic_event_pool_capacity &&
  lhs.dynamic_event_slice_borrow_cas_attempts ==
    rhs.dynamic_event_slice_borrow_cas_attempts &&
  lhs.event_buffer_retention_duration_nanoseconds ==
    rhs.event_buffer_retention_duration_nanoseconds &&
  lhs.flush_event_buffer_when_full == rhs.flush_event_buffer_when_full &&
  lhs.flush_event_buffer_immediately_after_flush ==
    rhs.flush_event_buffer_immediately_after_flush

end spoor.runtime.config

/-! ## Circular buffer: auxiliary facts -/

namespace spoor.runtime.buffer.UnownedBufferSlice

variable {T : Type}

theorem succ_mod_cases (n C : Nat) (hC : 0 < C) :
    (n + 1) % C = if n % C + 1 = C then 0 else n % C + 1 := by
  have hr : n % C < C := Nat.mod_lt n hC
  rw [Nat.add_mod]
  by_cases h1 : C = 1
  · subst h1
    simp [Nat.mod_one]
  · have h1C : 1 % C = 1 := Nat.mod_eq_of_lt (by omega)
    rw [h1C]
    split
    · next h => rw [h, Nat.mod_self]
    · next h => exact Nat.mod_eq_of_lt (by omega)

theorem mod_ne_of_lt_of_lt_add {k n C : Nat} (hkn : k < n) (hn : n < k + C) :
    k % C ≠ n % C := by
  intro h
  have hz : (n - k) % C = 0 := Nat.sub_mod_eq_zero_of_mod_eq h.symm
  have hd : C ∣ n - k := Nat.dvd_of_mod_eq_zero hz
  have := Nat.le_of_dvd (by omega) hd
  omega

theorem add_mod_of_lt {s j C : Nat} (h : s % C + j < C) : (s + j) % C = s % C + j := by
  rw [Nat.add_mod]
  have hj : j < C := by omega
  rw [Nat.mod_eq_of_lt hj, Nat.mod_eq_of_lt h]

theorem pushAll_nil (s : UnownedBufferSlice T) : pushAll s [] = s := rfl

theorem pushAll_concat (s : UnownedBufferSlice T) (xs : List T) (x : T) :
    pushAll s (xs ++ [x]) = Push (pushAll s xs) x := by
  simp [pushAll, List.foldl_append]

theorem afterPushes (mem : Memory T) (base C : Nat) (vs : List T) :
    AfterPushes mem base C vs (pushAll (ctor mem ⟨base, C⟩) vs) := by
  induction vs using List.reverseRecOn with
  | nil =>
    refine ⟨rfl, ?_, ?_, ?_, ?_⟩
    · simp [pushAll, ctor, Span.begin_]
    · simp [pushAll, ctor]
    · intro _ k x h; simp at h
    · intro _ a _; rfl
  | append_singleton xs x ih =>
    rw [pushAll_concat]
    obtain ⟨hb, hi, hs, hst, hfr⟩ := ih
    have hlen : (xs ++ [x]).length = xs.length + 1 := by simp
    refine ⟨hb, ?_, ?_, ?_, ?_⟩
    · show (if _ + 1 = _ then _ else _) = _
      rw [hi, hb, hlen]
      simp only [Span.end_, Span.begin_]
      rcases Nat.eq_zero_or_pos C with h0 | hC
      · subst h0
        simp only [Nat.mod_zero]
        split <;> omega
      · rw [succ_mod_cases _ _ hC]
        split <;> split <;> omega
    · show min (_ + 1) _ = _
      simp only [Capacity, hb, hs, hlen]
      omega
    · intro hC k y hk hle
      show Memory.write _ _ _ _ = _
      rw [hi]
      rw [hlen] at hle
      unfold Memory.write
      by_cases hkn : k < xs.length
      · rw [List.getElem?_append_left hkn] at hk
        have hne : k % C ≠ xs.length % C := mod_ne_of_lt_of_lt_add hkn (by omega)
        rw [if_neg (by omega)]
        exact hst hC k y hk (by omega)
      · have hk2 := List.getElem?_eq_some.mp hk
        obtain ⟨hlt, _⟩ := hk2
        rw [hlen] at hlt
        have hkeq : k = xs.length := by omega
        subst hkeq
        rw [List.getElem?_concat_length] at hk
        simp at hk
        simp [hk]
    · intro hC a ha
      show Memory.write _ _ _ _ = _
      rw [hi]
      rw [hlen] at ha
      unfold Memory.write
      have hr : xs.length % C < C := Nat.mod_lt _ hC
      have hr2 : xs.length % C ≤ xs.length := Nat.mod_le _ _
      rw [if_neg (by omega)]
      exact hfr hC a (by omega)

/-- Reading a window of the ring that does not cross the end of the span
yields the corresponding run of recently pushed items. -/
theorem read_window {mem : Memory T} {base C : Nat} {vs : List T}
    {s : UnownedBufferSlice T} (inv : AfterPushes mem base C vs s) (hC : 0 < C)
    (start len : Nat) (h1 : start + len ≤ vs.length) (h2 : vs.length ≤ start + C)
    (h4 : start % C + len ≤ C) :
    Span.read s.memory ⟨base + start % C, len⟩ = (vs.drop start).take len := by
  apply List.ext_getElem?
  intro j
  simp only [Span.read, List.getElem?_map, List.getElem?_take, List.getElem?_drop]
  by_cases hj : j < len
  · rw [List.getElem?_range hj, if_pos hj]
    have hlt : start + j < vs.length := by omega
    have hsome : vs[start + j]? = some vs[start + j] := List.getElem?_eq_getElem hlt
    rw [hsome]
    simp only [Option.map_some']
    congr 1
    have := inv.stored hC (start + j) _ hsome (by omega)
    rw [add_mod_of_lt (by omega)] at this
    rw [← this]
    congr 1
    omega
  · rw [if_neg hj, List.getElem?_eq_none (by simpa using hj)]
    rfl

/-- The chunk list of a slice after at least one push into a fresh slice of
positive capacity. -/
theorem chunks_afterPushes {mem : Memory T} {base C : Nat} {vs : List T}
    {s : UnownedBufferSlice T} (inv : AfterPushes mem base C vs s) (hC : 0 < C)
    (hn : 0 < vs.length) :
    s.ContiguousMemoryChunks =
      if C < vs.length ∧ vs.length % C ≠ 0
      then [⟨base + vs.length % C, C - vs.length % C⟩, ⟨base, vs.length % C⟩]
      else [⟨base, min vs.length C⟩] := by
  have hr : vs.length % C < C := Nat.mod_lt _ hC
  have hself : C ≤ vs.length → vs.length ≤ C → vs.length % C = 0 := by
    intro h1 h2
    have : vs.length = C := by omega
    rw [this, Nat.mod_self]
  have hsmall : vs.length < C → vs.length % C = vs.length := Nat.mod_eq_of_lt
  have hE : s.Empty = false := by
    simp only [Empty, Size, inv.size]
    simp only [beq_eq_false_iff_ne, ne_eq]
    omega
  unfold ContiguousMemoryChunks
  rw [hE]
  simp only [Bool.false_eq_true, if_false, Full, Size, Capacity, inv.buffer, inv.iter, inv.size,
    Span.begin_, Span.end_]
  by_cases h2 : C < vs.length ∧ vs.length % C ≠ 0
  · rw [if_pos h2, if_neg]
    · have e1 : base + C - (base + vs.length % C) = C - vs.length % C := by omega
      have e2 : base + vs.length % C - base = vs.length % C := by omega
      rw [e1, e2]
    · simp only [Bool.or_eq_true, Bool.not_eq_true', decide_eq_false_iff_not, beq_iff_eq,
        not_or, not_not]
      omega
  · rw [if_neg h2, if_pos]
    simp only [Bool.or_eq_true, Bool.not_eq_true', decide_eq_false_iff_not, beq_iff_eq]
    by_cases h3 : C ≤ vs.length
    · right
      by_cases h4 : C < vs.length
      · have : vs.length % C = 0 := by
          by_contra h5
          exact h2 ⟨h4, h5⟩
        omega
      · have := hself h3 (by omega)
        omega
    · left; omega

/-- The concatenated chunk contents after pushes into a fresh slice of
positive capacity are the most recently pushed items. -/
theorem chunkContents_afterPushes {mem : Memory T} {base C : Nat} {vs : List T}
    {s : UnownedBufferSlice T} (inv : AfterPushes mem base C vs s) (hC : 0 < C) :
    s.chunkContents = vs.drop (vs.length - min vs.length C) := by
  rcases Nat.eq_zero_or_pos vs.length with h0 | hn
  · have hvs : vs = [] := List.length_eq_zero.mp h0
    subst hvs
    have hE : s.Empty = true := by simp [Empty, Size, inv.size]
    simp [chunkContents, ContiguousMemoryChunks, hE]
  · have hr : vs.length % C < C := Nat.mod_lt _ hC
    unfold chunkContents
    rw [chunks_afterPushes inv hC hn]
    by_cases h2 : C < vs.length ∧ vs.length % C ≠ 0
    · rw [if_pos h2]
      obtain ⟨hlt, hne⟩ := h2
      have hm1 : (vs.length - C) % C = vs.length % C :=
        (Nat.mod_eq_sub_mod (by omega)).symm
      have hm2 : (vs.length - vs.length % C) % C = 0 :=
        Nat.sub_mod_eq_zero_of_mod_eq (by rw [Nat.mod_mod])
      have hle : vs.length % C ≤ vs.length := Nat.mod_le _ _
      have w1 := read_window inv hC (vs.length - C) (C - vs.length % C)
        (by omega) (by omega) (by omega)
      have w2 := read_window inv hC (vs.length - vs.length % C) (vs.length % C)
        (by omega) (by omega) (by omega)
      rw [hm1] at w1
      rw [hm2] at w2
      simp only [List.map_cons, List.map_nil, List.flatten_cons, List.flatten_nil,
        List.append_nil, Nat.add_zero] at *
      rw [w1, w2]
      have hmin : min vs.length C = C := by omega
      rw [hmin]
      have hd : List.drop (vs.length - vs.length % C) vs =
          List.drop (C - vs.length % C) (List.drop (vs.length - C) vs) := by
        rw [List.drop_drop]
        congr 1
        omega
      have ht : List.take (vs.length % C)
          (List.drop (C - vs.length % C) (List.drop (vs.length - C) vs)) =
          List.drop (C - vs.length % C) (List.drop (vs.length - C) vs) :=
        List.take_of_length_le (by simp only [List.length_drop]; omega)
      rw [hd, ht, List.take_append_drop]
    · rw [if_neg h2]
      simp only [List.map_cons, List.map_nil, List.flatten_cons, List.flatten_nil,
        List.append_nil]
      by_cases h3 : C ≤ vs.length
      · have hmin : min vs.length C = C := by omega
        have hm1 : (vs.length - C) % C = vs.length % C :=
          (Nat.mod_eq_sub_mod (by omega)).symm
        have hz : vs.length % C = 0 := by
          by_cases h4 : C < vs.length
          · by_contra h5
            exact h2 ⟨h4, h5⟩
          · have : vs.length = C := by omega
            rw [this, Nat.mod_self]
        have w := read_window inv hC (vs.length - C) C (by omega) (by omega) (by omega)
        rw [hm1, hz] at w
        rw [hmin]
        simp only [Nat.add_zero] at w
        rw [w, List.take_of_length_le (by simp; omega)]
      · have hmin : min vs.length C = vs.length := by omega
        have w := read_window inv hC 0 vs.length (by omega) (by omega)
          (by rw [Nat.zero_mod]; omega)
        rw [Nat.zero_mod] at w
        simp only [Nat.add_zero, List.drop_zero] at w
        rw [hmin, w, Nat.sub_self, List.drop_zero, List.take_of_length_le (Nat.le_refl _)]

/-- Characterisation of `WillWrapOnNextPush` in terms of the capacity `C` and insertion index `i`. -/
theorem willWrap_iff (mem : Memory T) (base C i S : Nat) :
    (⟨mem, ⟨base, C⟩, base + i, S⟩ : UnownedBufferSlice T).WillWrapOnNextPush = true ↔
      (C = 0 ∨ i + 1 = C) := by
  simp only [WillWrapOnNextPush, Capacity, Span.end_, Bool.or_eq_true, beq_iff_eq]
  constructor
  · rintro (h | h)
    · exact Or.inl h
    · exact Or.inr (by omega)
  · rintro (h | h)
    · exact Or.inl h
    · exact Or.inr (by omega)

/-- The insertion index after a `Push` is 0 exactly when it pointed at the last
slot before (for a capacity-0 span there is no such slot). -/
theorem push_index_zero_iff (mem : Memory T) (base C i S : Nat) (x : T) :
    ((⟨mem, ⟨base, C⟩, base + i, S⟩ : UnownedBufferSlice T).Push x).insertion_iterator_ = base ↔
      i + 1 = C := by
  simp only [Push, Span.end_, Span.begin_]
  constructor
  · intro h
    split at h <;> omega
  · intro h
    rw [if_pos (by omega)]

/-- After `n` pushes into a fresh slice of capacity `C > 0`,
`WillWrapOnNextPush` holds exactly when `(n + 1) % C = 0`. -/
theorem willWrap_afterPushes {mem : Memory T} {base C : Nat} {vs : List T}
    {s : UnownedBufferSlice T} (inv : AfterPushes mem base C vs s) (hC : 0 < C) :
    s.WillWrapOnNextPush = true ↔ (vs.length + 1) % C = 0 := by
  have hr : vs.length % C < C := Nat.mod_lt _ hC
  simp only [WillWrapOnNextPush, Capacity, inv.buffer, inv.iter, Span.end_, Bool.or_eq_true,
    beq_iff_eq]
  rw [succ_mod_cases _ _ hC]
  constructor
  · rintro (h | h)
    · omega
    · rw [if_pos (by omega)]
  · intro h
    right
    split at h <;> omega

end spoor.runtime.buffer.UnownedBufferSlice

/-! ## Circular buffer: properties -/

namespace spoor.runtime.buffer.UnownedBufferSlice

variable {T : Type}

/-- C1: for a capacity `C > 0`, after the items `vs` (`n` of them) were pushed
into a fresh slice over a span of `C` elements, the contents of the chunks
returned by `ContiguousMemoryChunks`, concatenated in the order returned, are
the last `min n C` pushed items in push order. -/
theorem chunks_concat_eq_last_pushed (mem : Memory T) (base C : Nat) (vs : List T)
    (hC : 0 < C) :
    (pushAll (ctor mem ⟨base, C⟩) vs).chunkContents =
      vs.drop (vs.length - min vs.length C) :=
  chunkContents_afterPushes (afterPushes mem base C vs) hC

/-- The two-chunk export scenario: capacity 5, pushes `0..6`. -/
theorem chunks_concat_eq_last_pushed_witness :
    0 < 5 ∧
    (pushAll (ctor (fun _ => (0 : Int)) ⟨100, 5⟩) [0, 1, 2, 3, 4, 5, 6]).chunkContents =
      [2, 3, 4, 5, 6] :=
  ⟨by decide, chunks_concat_eq_last_pushed (fun _ => (0 : Int)) 100 5 [0, 1, 2, 3, 4, 5, 6]
    (by decide)⟩

/-- C3: `ContiguousMemoryChunks` on a slice over the span `⟨base, C⟩` with
insertion index `i` and size `S` returns no chunk when the slice is empty;
otherwise the single chunk `[0, S)` when the slice is not full or `i = 0`;
otherwise the two chunks `[i, C)` then `[0, i)`.  After `n ≥ 1` pushes into a
fresh slice of capacity `C > 0` there are two chunks exactly when `C < n` and
`n % C ≠ 0`, holding `C - n % C` and `n % C` elements, and one chunk
otherwise. -/
theorem chunk_layout (mem : Memory T) (base C i S : Nat) (vs : List T) :
    ((⟨mem, ⟨base, C⟩, base + i, S⟩ : UnownedBufferSlice T).Empty = true →
      (⟨mem, ⟨base, C⟩, base + i, S⟩ : UnownedBufferSlice T).ContiguousMemoryChunks = []) ∧
    ((⟨mem, ⟨base, C⟩, base + i, S⟩ : UnownedBufferSlice T).Empty = false →
      ((⟨mem, ⟨base, C⟩, base + i, S⟩ : UnownedBufferSlice T).Full = false ∨ i = 0) →
      (⟨mem, ⟨base, C⟩, base + i, S⟩ : UnownedBufferSlice T).ContiguousMemoryChunks =
        [⟨base, S⟩]) ∧
    ((⟨mem, ⟨base, C⟩, base + i, S⟩ : UnownedBufferSlice T).Empty = false →
      (⟨mem, ⟨base, C⟩, base + i, S⟩ : UnownedBufferSlice T).Full = true → i ≠ 0 →
      (⟨mem, ⟨base, C⟩, base + i, S⟩ : UnownedBufferSlice T).ContiguousMemoryChunks =
        [⟨base + i, C - i⟩, ⟨base, i⟩]) ∧
    (0 < C → 1 ≤ vs.length →
      ((pushAll (ctor mem ⟨base, C⟩) vs).ContiguousMemoryChunks.length = 2 ↔
        (C < vs.length ∧ vs.length % C ≠ 0)) ∧
      (C < vs.length ∧ vs.length % C ≠ 0 →
        (pushAll (ctor mem ⟨base, C⟩) vs).ContiguousMemoryChunks.map Span.size =
          [C - vs.length % C, vs.length % C]) ∧
      (¬ (C < vs.length ∧ vs.length % C ≠ 0) →
        (pushAll (ctor mem ⟨base, C⟩) vs).ContiguousMemoryChunks.length = 1)) := by
  refine ⟨?_, ?_, ?_, ?_⟩
  · intro hE
    simp only [ContiguousMemoryChunks, hE, if_true]
  · intro hE h
    have hcond : (!(⟨mem, ⟨base, C⟩, base + i, S⟩ : UnownedBufferSlice T).Full ||
        (base + i == base)) = true := by
      rcases h with h | h
      · simp [h]
      · simp [h]
    simp only [ContiguousMemoryChunks, hE, Span.begin_, hcond, Size]
    simp
  · intro hE hF hi
    have hcond : (!(⟨mem, ⟨base, C⟩, base + i, S⟩ : UnownedBufferSlice T).Full ||
        (base + i == base)) = false := by
      simp [hF, hi]
    simp only [ContiguousMemoryChunks, hE, Span.begin_, Span.end_, hcond]
    have e1 : base + C - (base + i) = C - i := by omega
    have e2 : base + i - base = i := by omega
    simp [e1, e2]
  · intro hC hn
    have hch := chunks_afterPushes (afterPushes mem base C vs) hC hn
    refine ⟨?_, ?_, ?_⟩
    · rw [hch]
      by_cases h : C < vs.length ∧ vs.length % C ≠ 0
      · simp [h]
      · rw [if_neg h]
        simp [h]
    · intro h
      rw [hch, if_pos h]
      rfl
    · intro h
      rw [hch, if_neg h]
      rfl

/-- Capacity 5: after pushes `0..6` the chunks are `[2, 5)` then `[0, 2)`;
after pushes `0..9` the insertion index is back at 0 and there is one chunk. -/
theorem chunk_layout_witness :
    (pushAll (ctor (fun _ => (0 : Int)) ⟨100, 5⟩)
        [0, 1, 2, 3, 4, 5, 6]).ContiguousMemoryChunks.map Span.size = [5 - 7 % 5, 7 % 5] ∧
    (pushAll (ctor (fun _ => (0 : Int)) ⟨100, 5⟩)
        [0, 1, 2, 3, 4, 5, 6, 7, 8, 9]).ContiguousMemoryChunks.length = 1 ∧
    (⟨fun _ => (0 : Int), ⟨100, 5⟩, 100 + 2, 5⟩ :
        UnownedBufferSlice Int).ContiguousMemoryChunks = [⟨100 + 2, 5 - 2⟩, ⟨100, 2⟩] :=
  ⟨((chunk_layout (fun _ => (0 : Int)) 100 5 0 0 [0, 1, 2, 3, 4, 5, 6]).2.2.2
      (by decide) (by decide)).2.1 (by decide),
   ((chunk_layout (fun _ => (0 : Int)) 100 5 0 0 [0, 1, 2, 3, 4, 5, 6, 7, 8, 9]).2.2.2
      (by decide) (by decide)).2.2 (by decide),
   (chunk_layout (fun _ => (0 : Int)) 100 5 2 5 []).2.2.1 (by decide) (by decide) (by decide)⟩

/-- C4 (failing input): on a fresh slice over an empty span, `WillWrapOnNextPush`
returns `true`, yet the `Push` that follows moves the insertion iterator from
`begin()` to `begin() + 1` instead of leaving it at `begin()`. -/
theorem will_wrap_zero_capacity_next_push_not_at_begin :
    (ctor (fun _ => (0 : Int)) ⟨4, 0⟩).WillWrapOnNextPush = true ∧
    (ctor (fun _ => (0 : Int)) ⟨4, 0⟩).buffer_.begin_ = 4 ∧
    (ctor (fun _ => (0 : Int)) ⟨4, 0⟩).insertion_iterator_ = 4 ∧
    ((ctor (fun _ => (0 : Int)) ⟨4, 0⟩).Push 7).insertion_iterator_ = 5 := by
  decide

/-- C6 (failing input): `Push(7)` on a fresh slice over the empty span at
address 4 stores 7 at address 4, which lies outside the span, and advances the
insertion iterator from 4 to 5; only the size stays 0. -/
theorem push_zero_capacity_stores_and_advances :
    (ctor (fun _ => (0 : Int)) ⟨4, 0⟩).Capacity = 0 ∧
    (ctor (fun _ => (0 : Int)) ⟨4, 0⟩).memory 4 = 0 ∧
    ((ctor (fun _ => (0 : Int)) ⟨4, 0⟩).Push 7).memory 4 = 7 ∧
    (ctor (fun _ => (0 : Int)) ⟨4, 0⟩).insertion_iterator_ = 4 ∧
    ((ctor (fun _ => (0 : Int)) ⟨4, 0⟩).Push 7).insertion_iterator_ = 5 ∧
    ((ctor (fun _ => (0 : Int)) ⟨4, 0⟩).Push 7).size_ = 0 := by
  decide

/-- C7: `Clear()` on any slice sets the size to 0 and the insertion iterator
to `begin()` (index 0), leaves the span, hence the capacity, and the whole
backing memory unchanged; afterwards `Size() = 0`, `Empty()` holds and
`ContiguousMemoryChunks()` returns no chunk. -/
theorem clear_effect (s : UnownedBufferSlice T) :
    s.Clear.size_ = 0 ∧
    s.Clear.insertion_iterator_ = s.buffer_.begin_ ∧
    s.Clear.buffer_ = s.buffer_ ∧
    s.Clear.Capacity = s.Capacity ∧
    s.Clear.memory = s.memory ∧
    s.Clear.Size = 0 ∧
    s.Clear.Empty = true ∧
    s.Clear.ContiguousMemoryChunks = [] :=
  ⟨rfl, rfl, rfl, rfl, rfl, rfl, rfl, rfl⟩

/-- C8: for every capacity `C` and every list `vs` of at most `C` items, after
pushing `vs` into a fresh slice over the span `⟨base, C⟩` of the memory `mem`,
the memory holds `vs[k]` at address `base + k` for every `k < n`, every other
address holds what it held before, and when `n = C` the span reads as `vs`. -/
theorem unowned_writes_through (mem : Memory T) (base C : Nat) (vs : List T)
    (h : vs.length ≤ C) :
    (∀ (k : Nat) (hk : k < vs.length),
      (pushAll (ctor mem ⟨base, C⟩) vs).memory (base + k) = vs[k]) ∧
    (∀ a, (a < base ∨ base + vs.length ≤ a) →
      (pushAll (ctor mem ⟨base, C⟩) vs).memory a = mem a) ∧
    (vs.length = C →
      Span.read (pushAll (ctor mem ⟨base, C⟩) vs).memory ⟨base, C⟩ = vs) := by
  have inv := afterPushes mem base C vs
  rcases Nat.eq_zero_or_pos C with h0 | hC
  · subst h0
    have hvs : vs = [] := List.length_eq_zero.mp (by omega)
    subst hvs
    refine ⟨fun k hk => absurd hk (by simp), fun _ _ => rfl, fun _ => rfl⟩
  · refine ⟨?_, ?_, ?_⟩
    · intro k hk
      have := inv.stored hC k vs[k] (List.getElem?_eq_getElem hk) (by omega)
      rwa [Nat.mod_eq_of_lt (by omega)] at this
    · intro a ha
      apply inv.frame hC
      omega
    · intro hn
      have w := read_window inv hC 0 C (by omega) (by omega) (by rw [Nat.zero_mod]; omega)
      rw [Nat.zero_mod] at w
      simp only [Nat.add_zero, List.drop_zero] at w
      rw [w, List.take_of_length_le (by omega)]

/-- The unowned-constructor test at capacity 2: pushing `10, 11` leaves them in
the borrowed storage and the neighbouring cell untouched. -/
theorem unowned_writes_through_witness :
    [(10 : Int), 11].length ≤ 2 ∧
    (pushAll (ctor (fun _ => (0 : Int)) ⟨100, 2⟩) [10, 11]).memory (100 + 1) = 11 ∧
    (pushAll (ctor (fun _ => (0 : Int)) ⟨100, 2⟩) [10, 11]).memory 102 = 0 ∧
    Span.read (pushAll (ctor (fun _ => (0 : Int)) ⟨100, 2⟩) [10, 11]).memory ⟨100, 2⟩ =
      [10, 11] :=
  ⟨by decide,
   (unowned_writes_through (fun _ => (0 : Int)) 100 2 [10, 11] (by decide)).1 1 (by decide),
   (unowned_writes_through (fun _ => (0 : Int)) 100 2 [10, 11] (by decide)).2.1 102
     (Or.inr (by decide)),
   (unowned_writes_through (fun _ => (0 : Int)) 100 2 [10, 11] (by decide)).2.2 rfl⟩

end spoor.runtime.buffer.UnownedBufferSlice

/-! ## Flush queue: properties -/

namespace spoor.runtime.flush_queue.FlushQueue

variable {Buffer : Type}

/-- C9 (failing input): two buffers `a`, `b` are enqueued on a running queue,
then `Flush` and `DrainAndStop` are called, and every `Write` succeeds.  The
worker's first pass takes `queue_.back()`, the entry of `b`, while
`queue_.pop()` removes the front entry, that of `a`; the second pass takes the
moved-from entry left at the back.  `Write` receives `b` and then the
moved-from buffer; `a` is never written. -/
theorem drain_after_two_enqueues_never_writes_first (moved : Buffer → Buffer) (a b : Buffer) :
    (DrainAndStop moved [(4, true), (5, true)]
        (Flush 3 (Enqueue 2 9 b (Enqueue 1 9 a (Run (ctor ⟨"/t", 0, 1, 3⟩ 0)))))).map
      (fun q => (q.written_, q.queue_, q.GetState)) =
    some ([⟨b, 2, 9, 3⟩, ⟨moved b, 2, 9, 3⟩], [], State.kStopped) := by
  rfl

/-- C10 (counterexample): horizon 0, retention window 3, one entry enqueued at
time 5, worker pass at time 8.  Neither `5 ≤ 0` nor `5 + 3 < 8` holds, yet the
entry is handed to `Write` and is not re-enqueued. -/
theorem retention_boundary_entry_is_written :
    ¬ ((5 : Int) ≤ 0 ∨ (5 : Int) + 3 < 8) ∧
    (Enqueue 5 9 [1] (Run (ctor ⟨"/t", 3, 1, 3⟩ 0)) : FlushQueue (List Nat)).queue_ =
      [⟨[1], 5, 9, 3⟩] ∧
    (Enqueue 5 9 [1] (Run (ctor ⟨"/t", 3, 1, 3⟩ 0)) : FlushQueue (List Nat)).flush_timestamp_ =
      0 ∧
    (RunIteration (fun _ => []) 8 true
      (Enqueue 5 9 [1] (Run (ctor ⟨"/t", 3, 1, 3⟩ 0)) : FlushQueue (List Nat))).written_ =
      [⟨[1], 5, 9, 3⟩] ∧
    (RunIteration (fun _ => []) 8 true
      (Enqueue 5 9 [1] (Run (ctor ⟨"/t", 3, 1, 3⟩ 0)) : FlushQueue (List Nat))).queue_ = [] := by
  decide

/-- C10 (amended): in one worker pass whose pop yields the entry `e` and leaves
`rest` in the queue, with clock reading `now`, horizon `h = flush_timestamp_`
and retention window `r`, where the sum `e.flush_timestamp + r` fits the signed
64-bit nanosecond count (no overflow): if `e.flush_timestamp ≤ h` or
`e.flush_timestamp + r ≤ now` then `e` is handed to `Write`; in every other
case nothing is written and `e` is re-enqueued unchanged behind `rest`. -/
theorem iteration_writes_iff_horizon_or_retention_elapsed (moved : Buffer → Buffer)
    (now : Int) (write_ok : Bool) (q : FlushQueue Buffer) (e : FlushInfo Buffer)
    (rest : List (FlushInfo Buffer)) (hpop : pop moved q.queue_ = (some e, rest))
    (hfit : -2 ^ 63 ≤ e.flush_timestamp + q.options_.buffer_retention_duration ∧
      e.flush_timestamp + q.options_.buffer_retention_duration < 2 ^ 63) :
    ((e.flush_timestamp ≤ q.flush_timestamp_ ∨
        e.flush_timestamp + q.options_.buffer_retention_duration ≤ now) →
      (RunIteration moved now write_ok q).written_ = q.written_ ++ [e]) ∧
    (¬ (e.flush_timestamp ≤ q.flush_timestamp_ ∨
        e.flush_timestamp + q.options_.buffer_retention_duration ≤ now) →
      (RunIteration moved now write_ok q).written_ = q.written_ ∧
      (RunIteration moved now write_ok q).queue_ = rest ++ [e]) := by
  obtain ⟨_, _⟩ := hfit
  unfold RunIteration
  rw [hpop]
  simp only
  constructor
  · intro h
    have hc : (decide (now < e.flush_timestamp + q.options_.buffer_retention_duration) &&
        !decide (e.flush_timestamp ≤ q.flush_timestamp_)) = false := by
      rcases h with h | h
      · simp [h]
      · have : ¬ now < e.flush_timestamp + q.options_.buffer_retention_duration := by omega
        simp [this]
    rw [hc]
    simp only [Bool.false_eq_true, if_false]
    split <;> rfl
  · intro h
    have hc : (decide (now < e.flush_timestamp + q.options_.buffer_retention_duration) &&
        !decide (e.flush_timestamp ≤ q.flush_timestamp_)) = true := by
      have h1 : now < e.flush_timestamp + q.options_.buffer_retention_duration := by omega
      have h2 : ¬ e.flush_timestamp ≤ q.flush_timestamp_ := fun h2 => h (Or.inl h2)
      simp [h1, h2]
    rw [hc]
    simp only [if_true, and_self]

/-- Retention window 3, horizon 0, entry enqueued at 5: a pass at time 8 writes
the entry and a pass at time 7 re-enqueues it unchanged. -/
theorem iteration_writes_iff_horizon_or_retention_elapsed_witness :
    pop (fun _ => ([] : List Nat))
        (Enqueue 5 9 [1] (Run (ctor ⟨"/t", 3, 1, 3⟩ 0)) : FlushQueue (List Nat)).queue_ =
      (some ⟨[1], 5, 9, 3⟩, []) ∧
    (RunIteration (fun _ => []) 8 true
      (Enqueue 5 9 [1] (Run (ctor ⟨"/t", 3, 1, 3⟩ 0)) : FlushQueue (List Nat))).written_ =
      [] ++ [⟨[1], 5, 9, 3⟩] ∧
    (RunIteration (fun _ => []) 7 true
      (Enqueue 5 9 [1] (Run (ctor ⟨"/t", 3, 1, 3⟩ 0)) : FlushQueue (List Nat))).queue_ =
      [] ++ [⟨[1], 5, 9, 3⟩] :=
  ⟨by decide,
   (iteration_writes_iff_horizon_or_retention_elapsed (fun _ => []) 8 true
      (Enqueue 5 9 [1] (Run (ctor ⟨"/t", 3, 1, 3⟩ 0)) : FlushQueue (List Nat))
      ⟨[1], 5, 9, 3⟩ [] (by decide) ⟨by decide, by decide⟩).1 (Or.inr (by decide)),
   ((iteration_writes_iff_horizon_or_retention_elapsed (fun _ => []) 7 true
      (Enqueue 5 9 [1] (Run (ctor ⟨"/t", 3, 1, 3⟩ 0)) : FlushQueue (List Nat))
      ⟨[1], 5, 9, 3⟩ [] (by decide) ⟨by decide, by decide⟩).2 (by decide)).2⟩

/-- C12: `Enqueue` changes the queue exactly when the state is `Running`.  When
`Running` it appends one entry holding the argument buffer, the clock reading
`now` taken by the call and `max_buffer_flush_attempts`, and changes nothing
else; in the states `Stopped` and `Draining` it returns the queue object
unchanged. -/
theorem enqueue_effect (now : Int) (thread_id : Nat) (buffer : Buffer)
    (q : FlushQueue Buffer) :
    (q.GetState = State.kRunning →
      Enqueue now thread_id buffer q =
        { q with queue_ := q.queue_ ++
            [⟨buffer, now, thread_id, q.options_.max_buffer_flush_attempts⟩] }) ∧
    (q.GetState ≠ State.kRunning → Enqueue now thread_id buffer q = q) ∧
    ((Enqueue now thread_id buffer q).queue_ ≠ q.queue_ ↔ q.GetState = State.kRunning) ∧
    (Enqueue now thread_id buffer q).flush_timestamp_ = q.flush_timestamp_ ∧
    (Enqueue now thread_id buffer q).GetState = q.GetState := by
  cases hr : q.running_ <;> cases hd : q.draining_ <;>
    simp [Enqueue, GetState, hr, hd]

/-- A running queue gains the entry; a stopped one is left as it was. -/
theorem enqueue_effect_witness :
    (Enqueue 5 9 [1] (Run (ctor ⟨"/t", 3, 1, 3⟩ 0)) : FlushQueue (List Nat)).queue_ =
      [⟨[1], 5, 9, 3⟩] ∧
    (Enqueue 5 9 [1] (ctor ⟨"/t", 3, 1, 3⟩ 0) : FlushQueue (List Nat)) =
      ctor ⟨"/t", 3, 1, 3⟩ 0 :=
  ⟨congrArg FlushQueue.queue_
      ((enqueue_effect 5 9 [1] (Run (ctor ⟨"/t", 3, 1, 3⟩ 0) : FlushQueue (List Nat))).1
        (by decide)),
   (enqueue_effect 5 9 [1] (ctor ⟨"/t", 3, 1, 3⟩ 0 : FlushQueue (List Nat))).2.1
      (by decide)⟩

/-- C15: `Clear()` on any queue leaves `Size() = 0` and `Empty()` true, adds no
call to the record of `Write` calls, and leaves the horizon, the two flags and
hence the state unchanged. -/
theorem clear_discards_without_writing (q : FlushQueue Buffer) :
    q.Clear.Size = 0 ∧ q.Clear.Empty = true ∧ q.Clear.written_ = q.written_ ∧
    q.Clear.flush_timestamp_ = q.flush_timestamp_ ∧ q.Clear.running_ = q.running_ ∧
    q.Clear.draining_ = q.draining_ ∧ q.Clear.GetState = q.GetState :=
  ⟨rfl, rfl, rfl, rfl, rfl, rfl, rfl⟩

/-- C20 (failing input): the queue holds the entry of `a` (older) and then the
entry of `b`.  One worker pass hands `b` to `Write`, removes the entry of `a`
unwritten and leaves the moved-from entry of `b` in the queue. -/
theorem iteration_takes_back_and_removes_front (moved : Buffer → Buffer) (a b : Buffer) :
    (Flush 3 (Enqueue 2 9 b (Enqueue 1 9 a (Run (ctor ⟨"/t", 0, 1, 3⟩ 0))))).queue_ =
      [⟨a, 1, 9, 3⟩, ⟨b, 2, 9, 3⟩] ∧
    (RunIteration moved 4 true
      (Flush 3 (Enqueue 2 9 b (Enqueue 1 9 a (Run (ctor ⟨"/t", 0, 1, 3⟩ 0)))))).written_ =
      [⟨b, 2, 9, 3⟩] ∧
    (RunIteration moved 4 true
      (Flush 3 (Enqueue 2 9 b (Enqueue 1 9 a (Run (ctor ⟨"/t", 0, 1, 3⟩ 0)))))).queue_ =
      [⟨moved b, 2, 9, 3⟩] :=
  ⟨rfl, rfl, rfl⟩

/-- C16: for every queue and entry, `TraceFilePath` is `trace_file_path` joined
with `spoor-`, the sixteen lower-case hexadecimal digits of the session id,
`-`, those of the entry's thread id, `-`, those of the entry's
`flush_timestamp` (its enqueue time in nanoseconds, printed as a 64-bit
value), and `.trace`.  No clock reading enters the result. -/
theorem trace_file_path_format (q : FlushQueue Buffer) (e : FlushInfo Buffer) :
    q.TraceFilePath e =
      pathAppend q.options_.trace_file_path
        (String.mk ("spoor-".data ++ hex16 q.options_.session_id ++ "-".data ++
          hex16 e.thread_id ++ "-".data ++ hex16 (toUnsigned64 e.flush_timestamp) ++
          ".trace".data)) ∧
    (0 ≤ e.flush_timestamp → e.flush_timestamp < 2 ^ 64 →
      toUnsigned64 e.flush_timestamp = e.flush_timestamp.toNat) ∧
    (hex16 q.options_.session_id).length = 16 ∧ (hex16 e.thread_id).length = 16 ∧
    (hex16 (toUnsigned64 e.flush_timestamp)).length = 16 := by
  refine ⟨rfl, ?_, by simp [hex16], by simp [hex16], by simp [hex16]⟩
  intro h0 h1
  unfold toUnsigned64
  rw [Int.emod_eq_of_lt h0 h1]

set_option maxRecDepth 8000 in
/-- Session `0xabc`, thread id 255, entry enqueued at 4096 ns. -/
theorem trace_file_path_format_witness :
    (⟨⟨"/tmp/trace", 0, 0xabc, 3⟩, [], 0, true, false, []⟩ :
        FlushQueue (List Nat)).TraceFilePath ⟨[1], 4096, 255, 3⟩ =
      "/tmp/trace/spoor-0000000000000abc-00000000000000ff-0000000000001000.trace" ∧
    toUnsigned64 (4096 : Int) = (4096 : Int).toNat :=
  ⟨((trace_file_path_format
      (⟨⟨"/tmp/trace", 0, 0xabc, 3⟩, [], 0, true, false, []⟩ : FlushQueue (List Nat))
      ⟨[1], 4096, 255, 3⟩).1).trans (by decide),
   (trace_file_path_format
      (⟨⟨"/tmp/trace", 0, 0xabc, 3⟩, [], 0, true, false, []⟩ : FlushQueue (List Nat))
      ⟨[1], 4096, 255, 3⟩).2.1 (by decide) (by decide)⟩

end spoor.runtime.flush_queue.FlushQueue

/-! ## Environment options: properties -/

namespace util.env

/-- C17: the integral overload of `GetEnvOrDefault` returns the default when
`get_env(key)` is null, the default when the text does not parse, and the
parsed value otherwise; being a total function it always returns a value. -/
theorem get_env_or_default_integral {T : Type} (SimpleAtoi : String → Option T)
    (key : String) (d : T) (get_env : String → Option String) :
    (get_env key = none → GetEnvOrDefault SimpleAtoi key d get_env = d) ∧
    (∀ text, get_env key = some text → SimpleAtoi text = none →
      GetEnvOrDefault SimpleAtoi key d get_env = d) ∧
    (∀ text value, get_env key = some text → SimpleAtoi text = some value →
      GetEnvOrDefault SimpleAtoi key d get_env = value) := by
  refine ⟨?_, ?_, ?_⟩
  · intro h
    simp [GetEnvOrDefault, h]
  · intro text h hp
    simp [GetEnvOrDefault, h, hp]
  · intro text value h hp
    simp [GetEnvOrDefault, h, hp]

/-- A lookup that knows one key, with a parser that accepts the text `"42"`
only. -/
theorem get_env_or_default_integral_witness :
    GetEnvOrDefault (fun s => if s = "42" then some (42 : Int) else none) "OTHER" 7
      (fun k => if k = "KEY" then some "42" else none) = 7 ∧
    GetEnvOrDefault (fun s => if s = "42" then some (42 : Int) else none) "KEY" 7
      (fun k => if k = "KEY" then some "x" else none) = 7 ∧
    GetEnvOrDefault (fun s => if s = "42" then some (42 : Int) else none) "KEY" 7
      (fun k => if k = "KEY" then some "42" else none) = 42 :=
  ⟨(get_env_or_default_integral (fun s => if s = "42" then some (42 : Int) else none) "OTHER" 7
      (fun k => if k = "KEY" then some "42" else none)).1 (by decide),
   (get_env_or_default_integral (fun s => if s = "42" then some (42 : Int) else none) "KEY" 7
      (fun k => if k = "KEY" then some "x" else none)).2.1 "x" (by decide) (by decide),
   (get_env_or_default_integral (fun s => if s = "42" then some (42 : Int) else none) "KEY" 7
      (fun k => if k = "KEY" then some "42" else none)).2.2 "42" 42 (by decide) (by decide)⟩

end util.env

/-! ## Filters: properties -/

namespace spoor.instrumentation.filters

/-- The scan returns the outcome of the filter at position `i` when that
filter matches and none before it does. -/
theorem scanFilters_first_match (info : FunctionInfo) (fs : List Filter) (i : Nat)
    (f : Filter) (hf : fs[i]? = some f) (hm : f.Matches info = true)
    (hbefore : ∀ (j : Nat) (g : Filter), j < i → fs[j]? = some g → g.Matches info = false) :
    scanFilters fs info =
      { instrument := decide (f.action = Action.kAllow),
        active_filter_rule_name := f.rule_name } := by
  induction fs generalizing i with
  | nil => simp at hf
  | cons g rest ih =>
    cases i with
    | zero =>
      simp only [List.getElem?_cons_zero, Option.some.injEq] at hf
      subst hf
      simp only [scanFilters, hm, if_true]
      cases g.action <;> simp
    | succ k =>
      have hg : g.Matches info = false := hbefore 0 g (Nat.succ_pos k) (by simp)
      simp only [List.getElem?_cons_succ] at hf
      simp only [scanFilters, hg, Bool.false_eq_true, if_false]
      apply ih k hf
      intro j g2 hj hg2
      exact hbefore (j + 1) g2 (by omega) (by simpa using hg2)

/-- The scan instruments without a rule name when no filter matches. -/
theorem scanFilters_no_match (info : FunctionInfo) (fs : List Filter)
    (hnone : ∀ f ∈ fs, f.Matches info = false) :
    scanFilters fs info = { instrument := true, active_filter_rule_name := none } := by
  induction fs with
  | nil => rfl
  | cons g rest ih =>
    have hg : g.Matches info = false := hnone g (List.mem_cons_self g rest)
    simp only [scanFilters, hg, Bool.false_eq_true, if_false]
    exact ih (fun f hf => hnone f (List.mem_cons_of_mem g hf))

/-- C18: for every ordered filter list and every function, `InstrumentFunction`
returns the outcome of the first filter, in list order, that matches
(`instrument` is true for `Allow` and false for `Block`, with that filter's
rule name); when no filter matches, and so for the empty list, it returns
`instrument = true` with no rule name. -/
theorem instrument_function_first_match (filters : Filters) (info : FunctionInfo) :
    (∀ (i : Nat) (f : Filter), filters.filters_[i]? = some f → f.Matches info = true →
      (∀ (j : Nat) (g : Filter), j < i → filters.filters_[j]? = some g →
        g.Matches info = false) →
      filters.InstrumentFunction info =
        { instrument := decide (f.action = Action.kAllow),
          active_filter_rule_name := f.rule_name }) ∧
    ((∀ f ∈ filters.filters_, f.Matches info = false) →
      filters.InstrumentFunction info =
        { instrument := true, active_filter_rule_name := none }) ∧
    (Filters.mk []).InstrumentFunction info =
      { instrument := true, active_filter_rule_name := none } :=
  ⟨fun i f hf hm hb => scanFilters_first_match info filters.filters_ i f hf hm hb,
   fun hnone => scanFilters_no_match info filters.filters_ hnone,
   rfl⟩

/-- The filter-precedence scenario: with the filters block `a.cc`, allow
`_foo`, block more than 1000 instructions, the function `_foo` of `b.cc` with
50 instructions is allowed by the second filter. -/
theorem instrument_function_first_match_witness :
    (Filters.mk
      [⟨Action.kBlock, some "r1", some "a.cc", none, none, none, none⟩,
       ⟨Action.kAllow, some "r2", none, none, some "_foo", none, none⟩,
       ⟨Action.kBlock, some "r3", none, none, none, none, some 1000⟩]).InstrumentFunction
      ⟨"b.cc", "foo", "_foo", 50⟩ =
      { instrument := decide (Action.kAllow = Action.kAllow),
        active_filter_rule_name := some "r2" } :=
  (instrument_function_first_match
    (Filters.mk
      [⟨Action.kBlock, some "r1", some "a.cc", none, none, none, none⟩,
       ⟨Action.kAllow, some "r2", none, none, some "_foo", none, none⟩,
       ⟨Action.kBlock, some "r3", none, none, none, none, some 1000⟩])
    ⟨"b.cc", "foo", "_foo", 50⟩).1 1
    ⟨Action.kAllow, some "r2", none, none, some "_foo", none, none⟩ rfl (by decide)
    (fun j g hj hg => by
      have hj0 : j = 0 := by omega
      subst hj0
      simp only [List.getElem?_cons_zero, Option.some.injEq] at hg
      subst hg
      decide)

end spoor.instrumentation.filters

/-! ## Flush queue: the worker loop -/

namespace spoor.runtime.flush_queue.FlushQueue

variable {Buffer : Type}

theorem nil_or_concat (l : List (FlushInfo Buffer)) :
    l = [] ∨ ∃ front back, l = front ++ [back] := by
  rcases List.eq_nil_or_concat l with h | ⟨front, back, h⟩
  · exact Or.inl h
  · exact Or.inr ⟨front, back, by rw [h, List.concat_eq_append]⟩

theorem pop_nil (moved : Buffer → Buffer) :
    pop moved ([] : List (FlushInfo Buffer)) = (none, []) := rfl

theorem pop_concat (moved : Buffer → Buffer) (front : List (FlushInfo Buffer))
    (back : FlushInfo Buffer) :
    pop moved (front ++ [back]) =
      (some back, (front ++ [{ back with buffer := moved back.buffer }]).tail) := by
  simp [pop]

/-- A pass on an empty queue changes nothing. -/
theorem runIteration_empty (moved : Buffer → Buffer) (now : Int) (write_ok : Bool)
    (q : FlushQueue Buffer) (hq : q.queue_ = []) : RunIteration moved now write_ok q = q := by
  simp [RunIteration, hq, pop_nil]

/-- A pass whose popped entry is within the horizon or past its retention
window hands the entry to `Write` and re-enqueues it only for a retry. -/
theorem runIteration_eligible (moved : Buffer → Buffer) (now : Int) (write_ok : Bool)
    (q : FlushQueue Buffer) (e : FlushInfo Buffer) (rest : List (FlushInfo Buffer))
    (hpop : pop moved q.queue_ = (some e, rest))
    (h : e.flush_timestamp ≤ q.flush_timestamp_ ∨
      e.flush_timestamp + q.options_.buffer_retention_duration ≤ now) :
    RunIteration moved now write_ok q =
      { q with
        queue_ := rest ++
          (if !write_ok && decide (0 < e.remaining_flush_attempts) then
            [{ e with remaining_flush_attempts := e.remaining_flush_attempts - 1 }]
          else []),
        written_ := q.written_ ++ [e] } := by
  have hc : (decide (now < e.flush_timestamp + q.options_.buffer_retention_duration) &&
      !decide (e.flush_timestamp ≤ q.flush_timestamp_)) = false := by
    rcases h with h | h
    · simp [h]
    · have : ¬ now < e.flush_timestamp + q.options_.buffer_retention_duration := by omega
      simp [this]
  unfold RunIteration
  rw [hpop]
  simp only [hc, Bool.false_eq_true, if_false]
  split <;> simp

/-- A pass whose popped entry is outside the horizon and inside its retention
window re-enqueues the entry and writes nothing. -/
theorem runIteration_retained (moved : Buffer → Buffer) (now : Int) (write_ok : Bool)
    (q : FlushQueue Buffer) (e : FlushInfo Buffer) (rest : List (FlushInfo Buffer))
    (hpop : pop moved q.queue_ = (some e, rest))
    (h : ¬ (e.flush_timestamp ≤ q.flush_timestamp_ ∨
      e.flush_timestamp + q.options_.buffer_retention_duration ≤ now)) :
    RunIteration moved now write_ok q = { q with queue_ := rest ++ [e] } := by
  have hc : (decide (now < e.flush_timestamp + q.options_.buffer_retention_duration) &&
      !decide (e.flush_timestamp ≤ q.flush_timestamp_)) = true := by
    have h1 : now < e.flush_timestamp + q.options_.buffer_retention_duration := by omega
    have h2 : ¬ e.flush_timestamp ≤ q.flush_timestamp_ := fun h2 => h (Or.inl h2)
    simp [h1, h2]
  unfold RunIteration
  rw [hpop]
  simp only [hc, if_true]

/-- A pass leaves the options, the horizon and the two flags alone. -/
theorem runIteration_frame (moved : Buffer → Buffer) (now : Int) (write_ok : Bool)
    (q : FlushQueue Buffer) :
    (RunIteration moved now write_ok q).options_ = q.options_ ∧
    (RunIteration moved now write_ok q).flush_timestamp_ = q.flush_timestamp_ ∧
    (RunIteration moved now write_ok q).running_ = q.running_ ∧
    (RunIteration moved now write_ok q).draining_ = q.draining_ := by
  rcases nil_or_concat q.queue_ with hq | ⟨front, back, hq⟩
  · rw [runIteration_empty moved now write_ok q hq]
    exact ⟨rfl, rfl, rfl, rfl⟩
  · have hpop := pop_concat moved front back
    rw [← hq] at hpop
    by_cases h : back.flush_timestamp ≤ q.flush_timestamp_ ∨
        back.flush_timestamp + q.options_.buffer_retention_duration ≤ now
    · rw [runIteration_eligible moved now write_ok q back _ hpop h]
      exact ⟨rfl, rfl, rfl, rfl⟩
    · rw [runIteration_retained moved now write_ok q back _ hpop h]
      exact ⟨rfl, rfl, rfl, rfl⟩

/-- Every entry queued after a pass carries the enqueue time of an entry that
was queued before it. -/
theorem runIteration_timestamps (moved : Buffer → Buffer) (now : Int) (write_ok : Bool)
    (q : FlushQueue Buffer) (e1 : FlushInfo Buffer)
    (h1 : e1 ∈ (RunIteration moved now write_ok q).queue_) :
    ∃ e ∈ q.queue_, e1.flush_timestamp = e.flush_timestamp := by
  rcases nil_or_concat q.queue_ with hq | ⟨front, back, hq⟩
  · rw [runIteration_empty moved now write_ok q hq] at h1
    exact ⟨e1, h1, rfl⟩
  · have hpop := pop_concat moved front back
    rw [← hq] at hpop
    have hback : back ∈ q.queue_ := by rw [hq]; simp
    have htail : ∀ x ∈ (front ++ [{ back with buffer := moved back.buffer }]).tail,
        ∃ e ∈ q.queue_, x.flush_timestamp = e.flush_timestamp := by
      intro x hx
      have hx2 := List.mem_of_mem_tail hx
      rcases List.mem_append.mp hx2 with hx3 | hx3
      · exact ⟨x, by rw [hq]; exact List.mem_append_left _ hx3, rfl⟩
      · rw [List.mem_singleton] at hx3
        exact ⟨back, hback, by rw [hx3]⟩
    by_cases h : back.flush_timestamp ≤ q.flush_timestamp_ ∨
        back.flush_timestamp + q.options_.buffer_retention_duration ≤ now
    · rw [runIteration_eligible moved now write_ok q back _ hpop h] at h1
      simp only at h1
      rcases List.mem_append.mp h1 with h2 | h2
      · exact htail e1 h2
      · split at h2
        · rw [List.mem_singleton] at h2
          exact ⟨back, hback, by rw [h2]⟩
        · simp at h2
    · rw [runIteration_retained moved now write_ok q back _ hpop h] at h1
      simp only at h1
      rcases List.mem_append.mp h1 with h2 | h2
      · exact htail e1 h2
      · rw [List.mem_singleton] at h2
        exact ⟨back, hback, by rw [h2]⟩

theorem runPasses_cons (moved : Buffer → Buffer) (p : Int × Bool) (rest : List (Int × Bool))
    (q : FlushQueue Buffer) :
    runPasses moved (p :: rest) q = runPasses moved rest (RunIteration moved p.1 p.2 q) := rfl

/-- Passes with a failing writer over a queue that holds the single entry `e`
with `m` retries left: each pass hands `e` to `Write`; the entry stays queued,
with one retry less, through the first `m` passes and is gone after pass
`m + 1`. -/
theorem failing_passes (moved : Buffer → Buffer) (inputs : List (Int × Bool)) :
    ∀ (q : FlushQueue Buffer) (e : FlushInfo Buffer) (m : Nat),
    q.queue_ = [e] → e.remaining_flush_attempts = (m : Int) →
    (∀ p ∈ inputs, p.2 = false) →
    (∀ p ∈ inputs, e.flush_timestamp ≤ q.flush_timestamp_ ∨
      e.flush_timestamp + q.options_.buffer_retention_duration ≤ p.1) →
    inputs.length ≤ m + 1 →
    (runPasses moved inputs q).written_ =
      q.written_ ++ (List.range inputs.length).map
        (fun k => { e with remaining_flush_attempts := (m : Int) - (k : Int) }) ∧
    (runPasses moved inputs q).queue_ =
      if inputs.length ≤ m then
        [{ e with remaining_flush_attempts := (m : Int) - (inputs.length : Int) }]
      else [] := by
  induction inputs with
  | nil =>
    intro q e m hq hm _ _ _
    have he : ({ e with remaining_flush_attempts := (m : Int) - ((0 : Nat) : Int) } :
        FlushInfo Buffer) = e := by
      cases e
      simp only [Nat.cast_zero, sub_zero] at *
      simp [hm]
    simp only [runPasses, List.foldl_nil, List.length_nil, List.range_zero, List.map_nil,
      List.append_nil, Nat.zero_le, if_true, true_and]
    rw [he, hq]
  | cons p rest ih =>
    intro q e m hq hm hfail helig hlen
    have hp : p.2 = false := hfail p (List.mem_cons_self p rest)
    have hpop : pop moved q.queue_ = (some e, []) := by
      rw [hq]
      exact pop_concat moved [] e
    have hstep := runIteration_eligible moved p.1 p.2 q e [] hpop
      (helig p (List.mem_cons_self p rest))
    rw [runPasses_cons, hstep, hp]
    simp only [List.length_cons] at hlen ⊢
    have he0 : ({ e with remaining_flush_attempts := (m : Int) - ((0 : Nat) : Int) } :
        FlushInfo Buffer) = e := by
      cases e
      simp only [Nat.cast_zero, sub_zero] at *
      simp [hm]
    cases m with
    | zero =>
      have hrest : rest = [] := List.length_eq_zero.mp (by omega)
      subst hrest
      have hnot : ¬ (0 : Int) < e.remaining_flush_attempts := by rw [hm]; simp
      simp only [Bool.not_false, Bool.true_and, hnot, decide_False, Bool.false_eq_true,
        if_false, List.append_nil, runPasses, List.foldl_nil, List.length_nil]
      refine ⟨?_, ?_⟩
      · rw [List.range_succ_eq_map]
        simp only [List.range_zero, List.map_nil, List.map_cons]
        rw [he0]
      · simp
    | succ k =>
      have hpos : (0 : Int) < e.remaining_flush_attempts := by
        rw [hm]
        exact Int.ofNat_lt.mpr (Nat.succ_pos k)
      simp only [Bool.not_false, Bool.true_and, hpos, decide_True, if_true, List.nil_append]
      have hih := ih
        ({ q with
            queue_ := [{ e with remaining_flush_attempts := e.remaining_flush_attempts - 1 }],
            written_ := q.written_ ++ [e] })
        { e with remaining_flush_attempts := e.remaining_flush_attempts - 1 } k rfl
        (by simp only [hm]; push_cast; ring)
        (fun x hx => hfail x (List.mem_cons_of_mem p hx))
        (fun x hx => helig x (List.mem_cons_of_mem p hx))
        (by omega)
      obtain ⟨hw, hqueue⟩ := hih
      refine ⟨?_, ?_⟩
      · rw [hw, List.range_succ_eq_map, List.map_cons, List.map_map, he0]
        simp only [List.append_assoc, List.singleton_append]
        congr 2
        apply List.map_congr_left
        intro j _
        simp only [Function.comp]
        congr 1
        push_cast
        ring
      · rw [hqueue]
        by_cases hle : rest.length ≤ k
        · rw [if_pos hle, if_pos (by omega)]
          congr 2
          push_cast
          ring
        · rw [if_neg hle, if_neg (by omega)]

/-- C11 (counterexample): `max_buffer_flush_attempts = 1`, a writer that always
fails, one entry enqueued at time 2 and inside the horizon 3.  After the first
failed `Write` the entry is still queued, with 0 attempts left; the second
pass calls `Write` on it again and only then is it gone: two calls, not one. -/
theorem one_attempt_configured_two_writes_made :
    (runPasses (fun _ => []) [(4, false)]
      (Flush 3 (Enqueue 2 9 [1] (Run (ctor ⟨"/t", 0, 1, 1⟩ 0))) :
        FlushQueue (List Nat))).written_ = [⟨[1], 2, 9, 1⟩] ∧
    (runPasses (fun _ => []) [(4, false)]
      (Flush 3 (Enqueue 2 9 [1] (Run (ctor ⟨"/t", 0, 1, 1⟩ 0))) :
        FlushQueue (List Nat))).queue_ = [⟨[1], 2, 9, 0⟩] ∧
    (runPasses (fun _ => []) [(4, false), (5, false)]
      (Flush 3 (Enqueue 2 9 [1] (Run (ctor ⟨"/t", 0, 1, 1⟩ 0))) :
        FlushQueue (List Nat))).written_ = [⟨[1], 2, 9, 1⟩, ⟨[1], 2, 9, 0⟩] ∧
    (runPasses (fun _ => []) [(4, false), (5, false)]
      (Flush 3 (Enqueue 2 9 [1] (Run (ctor ⟨"/t", 0, 1, 1⟩ 0))) :
        FlushQueue (List Nat))).queue_ = [] := by
  decide

/-- C11 (amended): with a writer that always fails and
`max_buffer_flush_attempts = m ≥ 0`, a single queued entry that is eligible
for write at every pass is handed to `Write` in each of `m + 1` consecutive
worker passes: it is still queued, with `m - k` attempts left, after `k ≤ m`
passes, and it is no longer in the queue after pass `m + 1`. -/
theorem failing_writer_drops_after_m_plus_one_writes (moved : Buffer → Buffer)
    (inputs : List (Int × Bool)) (q : FlushQueue Buffer) (e : FlushInfo Buffer) (m : Nat)
    (hq : q.queue_ = [e])
    (hm : e.remaining_flush_attempts = q.options_.max_buffer_flush_attempts)
    (hmax : q.options_.max_buffer_flush_attempts = (m : Int))
    (hfail : ∀ p ∈ inputs, p.2 = false)
    (helig : ∀ p ∈ inputs, e.flush_timestamp ≤ q.flush_timestamp_ ∨
      e.flush_timestamp + q.options_.buffer_retention_duration ≤ p.1) :
    (inputs.length ≤ m →
      (runPasses moved inputs q).queue_ =
        [{ e with remaining_flush_attempts := (m : Int) - (inputs.length : Int) }] ∧
      (runPasses moved inputs q).written_.length = q.written_.length + inputs.length) ∧
    (inputs.length = m + 1 →
      (runPasses moved inputs q).queue_ = [] ∧
      (runPasses moved inputs q).written_ =
        q.written_ ++ (List.range (m + 1)).map
          (fun k => { e with remaining_flush_attempts := (m : Int) - (k : Int) })) := by
  constructor
  · intro hlen
    obtain ⟨hw, hqueue⟩ := failing_passes moved inputs q e m hq (hm.trans hmax) hfail helig
      (by omega)
    rw [hqueue, if_pos hlen, hw]
    simp
  · intro hlen
    obtain ⟨hw, hqueue⟩ := failing_passes moved inputs q e m hq (hm.trans hmax) hfail helig
      (by omega)
    rw [hqueue, if_neg (by omega), hw, hlen]
    exact ⟨rfl, rfl⟩

/-- Two attempts configured: three failing passes hand the entry to `Write`
three times and leave the queue empty. -/
theorem failing_writer_drops_after_m_plus_one_writes_witness :
    (runPasses (fun _ => []) [(4, false), (5, false), (6, false)]
      (Flush 3 (Enqueue 2 9 [1] (Run (ctor ⟨"/t", 0, 1, 2⟩ 0))) :
        FlushQueue (List Nat))).queue_ = [] ∧
    (runPasses (fun _ => []) [(4, false), (5, false), (6, false)]
      (Flush 3 (Enqueue 2 9 [1] (Run (ctor ⟨"/t", 0, 1, 2⟩ 0))) :
        FlushQueue (List Nat))).written_ =
      [] ++ (List.range (2 + 1)).map
        (fun k => { (⟨[1], 2, 9, 2⟩ : FlushInfo (List Nat)) with
          remaining_flush_attempts := ((2 : Nat) : Int) - (k : Int) }) :=
  (failing_writer_drops_after_m_plus_one_writes (fun _ => [])
    [(4, false), (5, false), (6, false)]
    (Flush 3 (Enqueue 2 9 [1] (Run (ctor ⟨"/t", 0, 1, 2⟩ 0))) : FlushQueue (List Nat))
    ⟨[1], 2, 9, 2⟩ 2 rfl rfl rfl (by decide) (by decide)).2 rfl

theorem drainBound_nil (q : FlushQueue Buffer) (hq : q.queue_ = []) : q.drainBound = 0 := by
  simp [drainBound, hq]

theorem drainBound_concat (q : FlushQueue Buffer) (front : List (FlushInfo Buffer))
    (back : FlushInfo Buffer) (hq : q.queue_ = front ++ [back]) :
    q.drainBound = (front.length + 1) * (back.remaining_flush_attempts.toNat + 1) := by
  simp [drainBound, hq]

/-- A pass over a non-empty queue none of whose entries is retained lowers
`drainBound`. -/
theorem drainBound_decreases (moved : Buffer → Buffer) (now : Int) (write_ok : Bool)
    (q : FlushQueue Buffer) (hne : q.queue_ ≠ [])
    (helig : ∀ e ∈ q.queue_, e.flush_timestamp ≤ q.flush_timestamp_ ∨
      e.flush_timestamp + q.options_.buffer_retention_duration ≤ now) :
    (RunIteration moved now write_ok q).drainBound < q.drainBound := by
  rcases nil_or_concat q.queue_ with hq | ⟨front, back, hq⟩
  · exact absurd hq hne
  · have hpop := pop_concat moved front back
    rw [← hq] at hpop
    have hback : back ∈ q.queue_ := by rw [hq]; simp
    rw [runIteration_eligible moved now write_ok q back _ hpop (helig back hback),
      drainBound_concat q front back hq]
    by_cases hretry : (!write_ok && decide (0 < back.remaining_flush_attempts)) = true
    · rw [if_pos hretry]
      have hpos : 0 < back.remaining_flush_attempts := by
        simp only [Bool.and_eq_true, decide_eq_true_eq] at hretry
        exact hretry.2
      rw [drainBound_concat _ (front ++ [{ back with buffer := moved back.buffer }]).tail
        { back with remaining_flush_attempts := back.remaining_flush_attempts - 1 } rfl]
      simp only [List.length_tail, List.length_append, List.length_singleton,
        Nat.add_sub_cancel]
      have h1 : (back.remaining_flush_attempts - 1).toNat + 1 =
          back.remaining_flush_attempts.toNat := by omega
      rw [h1]
      exact Nat.mul_lt_mul_of_pos_left (Nat.lt_succ_self _) (Nat.succ_pos _)
    · rw [if_neg hretry]
      cases front with
      | nil =>
        rw [drainBound_nil _ (by simp)]
        simp
      | cons x rest =>
        rw [drainBound_concat _ rest { back with buffer := moved back.buffer } (by simp)]
        simp only [List.length_cons]
        exact Nat.mul_lt_mul_of_pos_right (Nat.lt_succ_self _) (Nat.succ_pos _)

/-- When the worker loop of a draining queue ends, the queue is empty, the
draining flag is cleared and the other members are those the passes left. -/
theorem workerLoop_result (moved : Buffer → Buffer) (inputs : List (Int × Bool)) :
    ∀ (q q1 : FlushQueue Buffer), q.draining_ = true → workerLoop moved inputs q = some q1 →
      q1.queue_ = [] ∧ q1.draining_ = false ∧ q1.running_ = q.running_ := by
  induction inputs with
  | nil =>
    intro q q1 hd h
    cases hE : q.Empty with
    | false => simp [workerLoop, hd, hE] at h
    | true =>
      simp only [workerLoop, hd, hE, Bool.not_true, Bool.or_self, Bool.false_eq_true, if_false,
        Option.some.injEq] at h
      subst h
      exact ⟨List.isEmpty_iff.mp hE, rfl, rfl⟩
  | cons p rest ih =>
    intro q q1 hd h
    obtain ⟨now, write_ok⟩ := p
    cases hE : q.Empty with
    | false =>
      simp only [workerLoop, hd, hE, Bool.not_true, Bool.not_false, Bool.or_true, if_true] at h
      have hf := runIteration_frame moved now write_ok q
      have := ih _ q1 (hf.2.2.2.trans hd) h
      exact ⟨this.1, this.2.1, this.2.2.trans hf.2.2.1⟩
    | true =>
      simp only [workerLoop, hd, hE, Bool.not_true, Bool.or_self, Bool.false_eq_true, if_false,
        Option.some.injEq] at h
      subst h
      exact ⟨List.isEmpty_iff.mp hE, rfl, rfl⟩

/-- The worker loop of a draining queue ends within `drainBound` passes when
none of the passes retains an entry. -/
theorem workerLoop_terminates (moved : Buffer → Buffer) (inputs : List (Int × Bool)) :
    ∀ (q : FlushQueue Buffer), q.draining_ = true →
      (∀ p ∈ inputs, ∀ e ∈ q.queue_, e.flush_timestamp ≤ q.flush_timestamp_ ∨
        e.flush_timestamp + q.options_.buffer_retention_duration ≤ p.1) →
      q.drainBound ≤ inputs.length →
      ∃ q1, workerLoop moved inputs q = some q1 := by
  induction inputs with
  | nil =>
    intro q hd _ hb
    rcases nil_or_concat q.queue_ with hq | ⟨front, back, hq⟩
    · exact ⟨{ q with draining_ := false }, by simp [workerLoop, hd, Empty, hq]⟩
    · rw [drainBound_concat q front back hq] at hb
      simp at hb
  | cons p rest ih =>
    intro q hd helig hb
    obtain ⟨now, write_ok⟩ := p
    rcases nil_or_concat q.queue_ with hq | ⟨front, back, hq⟩
    · exact ⟨{ q with draining_ := false }, by simp [workerLoop, hd, Empty, hq]⟩
    · have hne : q.queue_ ≠ [] := by rw [hq]; simp
      have hE : q.Empty = false := by simp [Empty, hq]
      have hf := runIteration_frame moved now write_ok q
      have hdec := drainBound_decreases moved now write_ok q hne
        (fun e he => helig (now, write_ok) (List.mem_cons_self _ _) e he)
      have hrec := ih (RunIteration moved now write_ok q) (hf.2.2.2.trans hd)
        (fun x hx e1 he1 => by
          obtain ⟨e, he, hts⟩ := runIteration_timestamps moved now write_ok q e1 he1
          rw [hf.1, hf.2.1, hts]
          exact helig x (List.mem_cons_of_mem _ hx) e he)
        (by simp only [List.length_cons] at hb; omega)
      obtain ⟨q1, hq1⟩ := hrec
      refine ⟨q1, ?_⟩
      simp only [workerLoop, hd, hE, Bool.not_true, Bool.not_false, Bool.or_true, if_true]
      exact hq1

theorem getState_running (q : FlushQueue Buffer) (h : q.GetState = State.kRunning) :
    q.running_ = true ∧ q.draining_ = false := by
  cases hr : q.running_ <;> cases hd : q.draining_ <;> simp [GetState, hr, hd] at h ⊢

theorem getState_stopped (q : FlushQueue Buffer) (h : q.GetState = State.kStopped) :
    q.running_ = false := by
  cases hr : q.running_ <;> cases hd : q.draining_ <;> simp [GetState, hr, hd] at h ⊢

/-- The horizon after `Flush` is the clock reading it took, and it covers every
queued entry that was stamped with an earlier reading of a non-decreasing
clock. -/
theorem flush_horizon (now : Int) (q : FlushQueue Buffer)
    (hmono : ∀ e ∈ q.queue_, e.flush_timestamp ≤ now) :
    (Flush now q).flush_timestamp_ = now ∧ (Flush now q).queue_ = q.queue_ ∧
    ∀ e ∈ (Flush now q).queue_, e.flush_timestamp ≤ (Flush now q).flush_timestamp_ :=
  ⟨rfl, rfl, hmono⟩

/-- C13 (failing input): retention window 100; `a` is enqueued at time 1 and `b`
at time 2; `Flush` at time 3 sets the horizon to 3, which covers both entries.
The next worker pass hands `b` to `Write` and removes the entry of `a` without
writing it; the pass after that writes the moved-from entry of `b`.  The entry
of `a` is never written. -/
theorem flush_then_passes_never_write_front_entry (moved : Buffer → Buffer) (a b : Buffer) :
    (Flush 3 (Enqueue 2 9 b (Enqueue 1 9 a (Run (ctor ⟨"/t", 100, 1, 3⟩ 0))))).flush_timestamp_ =
      3 ∧
    (Flush 3 (Enqueue 2 9 b (Enqueue 1 9 a (Run (ctor ⟨"/t", 100, 1, 3⟩ 0))))).queue_ =
      [⟨a, 1, 9, 3⟩, ⟨b, 2, 9, 3⟩] ∧
    (runPasses moved [(4, true)]
      (Flush 3 (Enqueue 2 9 b (Enqueue 1 9 a (Run (ctor ⟨"/t", 100, 1, 3⟩ 0)))))).written_ =
      [⟨b, 2, 9, 3⟩] ∧
    (runPasses moved [(4, true)]
      (Flush 3 (Enqueue 2 9 b (Enqueue 1 9 a (Run (ctor ⟨"/t", 100, 1, 3⟩ 0)))))).queue_ =
      [⟨moved b, 2, 9, 3⟩] ∧
    (runPasses moved [(4, true), (5, true)]
      (Flush 3 (Enqueue 2 9 b (Enqueue 1 9 a (Run (ctor ⟨"/t", 100, 1, 3⟩ 0)))))).written_ =
      [⟨b, 2, 9, 3⟩, ⟨moved b, 2, 9, 3⟩] ∧
    (runPasses moved [(4, true), (5, true)]
      (Flush 3 (Enqueue 2 9 b (Enqueue 1 9 a (Run (ctor ⟨"/t", 100, 1, 3⟩ 0)))))).queue_ =
      [] :=
  ⟨rfl, rfl, rfl, rfl, rfl, rfl⟩

/-- C14: for a queue in state `Running`, whatever it holds, a `DrainAndStop`
that returns leaves `Size() = 0` and the state `Stopped`; it does return,
within `drainBound` worker passes, when no pass retains an entry (every queued
entry is within the horizon or past its retention window at the pass's clock
reading); on a `Stopped` queue `DrainAndStop` changes nothing. -/
theorem drain_and_stop_empties_and_stops (moved : Buffer → Buffer)
    (inputs : List (Int × Bool)) (q : FlushQueue Buffer) :
    (q.GetState = State.kRunning → ∀ q1, DrainAndStop moved inputs q = some q1 →
      q1.Size = 0 ∧ q1.GetState = State.kStopped) ∧
    (q.GetState = State.kRunning →
      (∀ p ∈ inputs, ∀ e ∈ q.queue_, e.flush_timestamp ≤ q.flush_timestamp_ ∨
        e.flush_timestamp + q.options_.buffer_retention_duration ≤ p.1) →
      q.drainBound ≤ inputs.length →
      ∃ q1, DrainAndStop moved inputs q = some q1 ∧ q1.Size = 0 ∧
        q1.GetState = State.kStopped) ∧
    (q.GetState = State.kStopped → DrainAndStop moved inputs q = some q) := by
  have hsafe : q.GetState = State.kRunning → ∀ q1, DrainAndStop moved inputs q = some q1 →
      q1.Size = 0 ∧ q1.GetState = State.kStopped := by
    intro hrun q1 h
    obtain ⟨hr, hd⟩ := getState_running q hrun
    unfold DrainAndStop at h
    rw [if_neg (by simp [hr]), if_neg (by simp [hd])] at h
    generalize hw : workerLoop moved inputs { q with draining_ := true } = r at h
    cases r with
    | none => simp at h
    | some q2 =>
      simp only [Option.some.injEq] at h
      subst h
      obtain ⟨hq2, _, _⟩ := workerLoop_result moved inputs _ q2 rfl hw
      exact ⟨by simp [Size, hq2], by simp [GetState]⟩
  refine ⟨hsafe, ?_, ?_⟩
  · intro hrun helig hb
    obtain ⟨hr, hd⟩ := getState_running q hrun
    obtain ⟨q2, hw⟩ := workerLoop_terminates moved inputs { q with draining_ := true } rfl
      helig hb
    have hres : DrainAndStop moved inputs q = some { q2 with running_ := false } := by
      unfold DrainAndStop
      rw [if_neg (by simp [hr]), if_neg (by simp [hd]), hw]
    exact ⟨_, hres, hsafe hrun _ hres⟩
  · intro hstop
    have hr := getState_stopped q hstop
    simp [DrainAndStop, hr]

/-- Two entries, no retries configured, both inside the horizon: two worker
passes suffice and `DrainAndStop` returns an empty, stopped queue. -/
theorem drain_and_stop_empties_and_stops_witness :
    ∃ q1, DrainAndStop (fun _ => ([] : List Nat)) [(4, true), (5, true)]
        (Flush 3 (Enqueue 2 9 [2] (Enqueue 1 9 [1] (Run (ctor ⟨"/t", 0, 1, 0⟩ 0))))) =
        some q1 ∧ q1.Size = 0 ∧ q1.GetState = State.kStopped :=
  (drain_and_stop_empties_and_stops (fun _ => ([] : List Nat)) [(4, true), (5, true)]
    (Flush 3 (Enqueue 2 9 [2] (Enqueue 1 9 [1] (Run (ctor ⟨"/t", 0, 1, 0⟩ 0)))))).2.1
    (by decide) (by decide) (by decide)

end spoor.runtime.flush_queue.FlushQueue

/-! ## Runtime configuration: properties -/

namespace spoor.runtime.config

/-- What `operator==` decides: equality of the eleven members it compares. -/
theorem operatorEq_iff (lhs rhs : UserOptions) :
    operatorEq lhs rhs = true ↔
      (lhs.trace_file_path = rhs.trace_file_path ∧
       lhs.session_id = rhs.session_id ∧
       lhs.thread_event_buffer_capacity = rhs.thread_event_buffer_capacity ∧
       lhs.max_reserved_event_buffer_slice_capacity =
         rhs.max_reserved_event_buffer_slice_capacity ∧
       lhs.max_dynamic_event_buffer_slice_capacity =
         rhs.max_dynamic_event_buffer_slice_capacity ∧
       lhs.reserved_event_pool_capacity = rhs.reserved_event_pool_capacity ∧
       lhs.dynamic_event_pool_capacity = rhs.dynamic_event_pool_capacity ∧
       lhs.dynamic_event_slice_borrow_cas_attempts =
         rhs.dynamic_event_slice_borrow_cas_attempts ∧
       lhs.event_buffer_retention_duration_nanoseconds =
         rhs.event_buffer_retention_duration_nanoseconds ∧
       lhs.flush_event_buffer_when_full = rhs.flush_event_buffer_when_full ∧
       lhs.flush_event_buffer_immediately_after_flush =
         rhs.flush_event_buffer_immediately_after_flush) := by
  simp only [operatorEq, Bool.and_eq_true, beq_iff_eq, and_assoc]

/-- C24 (failing input): two option sets that agree in every member except
`max_flush_buffer_to_file_attempts` (1 against 2) compare equal under
`operator==`. -/
theorem options_differing_in_max_flush_attempts_compare_equal :
    operatorEq ⟨"/tmp", 7, 1024, 64, 64, 256, 256, 3, 0, 1, true, false⟩
      ⟨"/tmp", 7, 1024, 64, 64, 256, 256, 3, 0, 2, true, false⟩ = true ∧
    (⟨"/tmp", 7, 1024, 64, 64, 256, 256, 3, 0, 1, true, false⟩ :
        UserOptions).max_flush_buffer_to_file_attempts ≠
      (⟨"/tmp", 7, 1024, 64, 64, 256, 256, 3, 0, 2, true, false⟩ :
        UserOptions).max_flush_buffer_to_file_attempts := by
  decide

end spoor.runtime.config

/-! ## Flush queue: retry branch and file names -/

namespace spoor.runtime.flush_queue.FlushQueue

variable {Buffer : Type}

/-- The retry branch on its own: in a worker pass that hands the entry `e` to
`Write` (the pop yields `e` and leaves `rest`, and `e` is within the horizon or
past its retention window), a failed `Write` with attempts left appends `e`
with one attempt less and the same buffer, timestamp and thread id behind
`rest`; a failed `Write` without attempts left and a successful `Write` append
nothing, so the queue is what the pop left. -/
theorem retry_branch (moved : Buffer → Buffer) (now : Int) (write_ok : Bool)
    (q : FlushQueue Buffer) (e : FlushInfo Buffer) (rest : List (FlushInfo Buffer))
    (hpop : pop moved q.queue_ = (some e, rest))
    (helig : e.flush_timestamp ≤ q.flush_timestamp_ ∨
      e.flush_timestamp + q.options_.buffer_retention_duration ≤ now) :
    (RunIteration moved now write_ok q).written_ = q.written_ ++ [e] ∧
    (write_ok = false → 0 < e.remaining_flush_attempts →
      (RunIteration moved now write_ok q).queue_ =
        rest ++ [⟨e.buffer, e.flush_timestamp, e.thread_id,
          e.remaining_flush_attempts - 1⟩]) ∧
    (write_ok = false → e.remaining_flush_attempts ≤ 0 →
      (RunIteration moved now write_ok q).queue_ = rest) ∧
    (write_ok = true → (RunIteration moved now write_ok q).queue_ = rest) ∧
    (q.queue_ = [e] → rest = []) := by
  rw [runIteration_eligible moved now write_ok q e rest hpop helig]
  refine ⟨rfl, ?_, ?_, ?_, ?_⟩
  · intro hw hpos
    simp [hw, hpos]
  · intro hw hle
    have : ¬ 0 < e.remaining_flush_attempts := by omega
    simp [hw, this]
  · intro hw
    simp [hw]
  · intro hq
    rw [hq] at hpop
    have h2 := pop_concat moved [] e
    simp only [List.nil_append] at h2
    rw [h2] at hpop
    simp only [Prod.mk.injEq] at hpop
    exact hpop.2.symm

end spoor.runtime.flush_queue.FlushQueue

/-! ## Circular buffer: reachable states -/

namespace spoor.runtime.buffer.UnownedBufferSlice

variable {T : Type}

/-- One mutating call keeps a slice of positive capacity inside its span: the
size stays at most `C`, the insertion iterator stays in `[base, base + C)` and
the memory outside the span is not touched. -/
theorem step_in_bounds (mem : Memory T) (base C : Nat) (s : UnownedBufferSlice T)
    (op : Op T)
    (h : s.buffer_ = ⟨base, C⟩ ∧ s.size_ ≤ C ∧ base ≤ s.insertion_iterator_ ∧
      s.insertion_iterator_ < base + C ∧
      ∀ a, (a < base ∨ base + C ≤ a) → s.memory a = mem a) :
    (s.step op).buffer_ = ⟨base, C⟩ ∧ (s.step op).size_ ≤ C ∧
      base ≤ (s.step op).insertion_iterator_ ∧
      (s.step op).insertion_iterator_ < base + C ∧
      ∀ a, (a < base ∨ base + C ≤ a) → (s.step op).memory a = mem a := by
  obtain ⟨hb, hs, hlo, hhi, hfr⟩ := h
  cases op with
  | push item =>
    refine ⟨hb, ?_, ?_, ?_, ?_⟩
    · show min (s.size_ + 1) s.Capacity ≤ C
      rw [Capacity, hb]
      exact Nat.min_le_right _ _
    · show base ≤ (if _ + 1 = _ then _ else _)
      rw [hb]
      simp only [Span.end_, Span.begin_]
      split <;> omega
    · show (if _ + 1 = _ then _ else _) < base + C
      rw [hb]
      simp only [Span.end_, Span.begin_]
      split <;> omega
    · intro a ha
      show Memory.write _ _ _ _ = _
      unfold Memory.write
      rw [if_neg (by omega)]
      exact hfr a ha
  | clear =>
    refine ⟨hb, Nat.zero_le _, ?_, ?_, hfr⟩
    · show base ≤ s.buffer_.begin_
      rw [hb]
      exact Nat.le_refl _
    · show s.buffer_.begin_ < base + C
      rw [hb]
      show base < base + C
      omega

theorem run_in_bounds (mem : Memory T) (base C : Nat) (ops : List (Op T)) :
    ∀ (s : UnownedBufferSlice T),
      (s.buffer_ = ⟨base, C⟩ ∧ s.size_ ≤ C ∧ base ≤ s.insertion_iterator_ ∧
        s.insertion_iterator_ < base + C ∧
        ∀ a, (a < base ∨ base + C ≤ a) → s.memory a = mem a) →
      ((s.run ops).buffer_ = ⟨base, C⟩ ∧ (s.run ops).size_ ≤ C ∧
        base ≤ (s.run ops).insertion_iterator_ ∧
        (s.run ops).insertion_iterator_ < base + C ∧
        ∀ a, (a < base ∨ base + C ≤ a) → (s.run ops).memory a = mem a) := by
  induction ops with
  | nil => intro s h; exact h
  | cons op ops ih =>
    intro s h
    exact ih (s.step op) (step_in_bounds mem base C s op h)

/-- C22: for every capacity `C > 0`, every state reached from a fresh slice by
`Push` and `Clear` has `Size() ≤ C` and its insertion iterator inside the span,
and the memory outside the span is as it was, so every `Push` stores inside
the backing storage.  After `n` pushes into a fresh slice the slice is full
exactly when `C ≤ n`; from then on the slot at the insertion iterator holds
the oldest stored element and a `Push` replaces that element: the contents
become the old contents without their first element, followed by the new
item. -/
theorem reachable_states_stay_in_bounds (mem : Memory T) (base C : Nat) (hC : 0 < C)
    (ops : List (Op T)) (vs : List T) (x : T) :
    (((ctor mem ⟨base, C⟩).run ops).Size ≤ C ∧
      base ≤ ((ctor mem ⟨base, C⟩).run ops).insertion_iterator_ ∧
      ((ctor mem ⟨base, C⟩).run ops).insertion_iterator_ < base + C ∧
      ∀ a, (a < base ∨ base + C ≤ a) → ((ctor mem ⟨base, C⟩).run ops).memory a = mem a) ∧
    ((pushAll (ctor mem ⟨base, C⟩) vs).Full = true ↔ C ≤ vs.length) ∧
    (C ≤ vs.length →
      (pushAll (ctor mem ⟨base, C⟩) vs).chunkContents.head? =
        some ((pushAll (ctor mem ⟨base, C⟩) vs).memory
          (pushAll (ctor mem ⟨base, C⟩) vs).insertion_iterator_) ∧
      ((pushAll (ctor mem ⟨base, C⟩) vs).Push x).Full = true ∧
      ((pushAll (ctor mem ⟨base, C⟩) vs).Push x).chunkContents =
        (pushAll (ctor mem ⟨base, C⟩) vs).chunkContents.tail ++ [x]) := by
  have inv := afterPushes mem base C vs
  have inv2 := afterPushes mem base C (vs ++ [x])
  rw [pushAll_concat] at inv2
  have hfull : ∀ (ws : List T) (s : UnownedBufferSlice T), AfterPushes mem base C ws s →
      (s.Full = true ↔ C ≤ ws.length) := by
    intro ws s i
    simp only [Full, Capacity, Size, i.buffer, i.size, decide_eq_true_eq]
    omega
  refine ⟨?_, hfull vs _ inv, ?_⟩
  · have h := run_in_bounds mem base C ops (ctor mem ⟨base, C⟩)
      ⟨rfl, Nat.zero_le _, Nat.le_refl _, by show base < base + C; omega, fun _ _ => rfl⟩
    exact ⟨h.2.1, h.2.2.1, h.2.2.2.1, h.2.2.2.2⟩
  · intro hn
    have hlen : (vs ++ [x]).length = vs.length + 1 := by simp
    have hk : vs.length - C < vs.length := by omega
    have hsome : vs[vs.length - C]? = some vs[vs.length - C] := List.getElem?_eq_getElem hk
    refine ⟨?_, ?_, ?_⟩
    · rw [chunkContents_afterPushes inv hC, inv.iter]
      have hmin : min vs.length C = C := by omega
      rw [hmin, List.head?_drop, hsome]
      have hst := inv.stored hC (vs.length - C) _ hsome (by omega)
      rw [← Nat.mod_eq_sub_mod hn] at hst
      rw [hst]
    · exact (hfull (vs ++ [x]) _ inv2).mpr (by rw [hlen]; omega)
    · rw [chunkContents_afterPushes inv2 hC, chunkContents_afterPushes inv hC, hlen]
      have hmin : min vs.length C = C := by omega
      have hmin2 : min (vs.length + 1) C = C := by omega
      rw [hmin, hmin2, List.tail_drop, List.drop_append_of_le_length (by omega)]
      congr 2
      omega

/-- Capacity 2 over the span at address 100: after `Push 1`, `Clear`, `Push 2`,
`Push 3`, `Push 4` the size is 2 and the iterator is inside the span; after the
pushes `1, 2` the slice is full and pushing `3` replaces the oldest item `1`. -/
theorem reachable_states_stay_in_bounds_witness :
    ((ctor (fun _ => (0 : Int)) ⟨100, 2⟩).run
      [Op.push 1, Op.clear, Op.push 2, Op.push 3, Op.push 4]).Size ≤ 2 ∧
    ((pushAll (ctor (fun _ => (0 : Int)) ⟨100, 2⟩) [1, 2]).Push 3).chunkContents =
      (pushAll (ctor (fun _ => (0 : Int)) ⟨100, 2⟩) [1, 2]).chunkContents.tail ++ [3] :=
  ⟨(reachable_states_stay_in_bounds (fun _ => (0 : Int)) 100 2 (by decide)
      [Op.push 1, Op.clear, Op.push 2, Op.push 3, Op.push 4] [1, 2] 3).1.1,
   ((reachable_states_stay_in_bounds (fun _ => (0 : Int)) 100 2 (by decide)
      [Op.push 1, Op.clear, Op.push 2, Op.push 3, Op.push 4] [1, 2] 3).2.2
      (by decide)).2.2⟩

end spoor.runtime.buffer.UnownedBufferSlice

/-! ## Trace file names: injectivity -/

namespace spoor.runtime.flush_queue

theorem digitChar_inj :
    ∀ i, i < 16 → ∀ j, j < 16 → Nat.digitChar i = Nat.digitChar j → i = j := by
  decide

/-- Two numbers with the same `k` lowest hexadecimal digits agree modulo
`16 ^ k`. -/
theorem mod_pow_eq_of_digits (a b k : Nat)
    (h : ∀ i, i < k → a / 16 ^ i % 16 = b / 16 ^ i % 16) : a % 16 ^ k = b % 16 ^ k := by
  induction k with
  | zero => simp [Nat.mod_one]
  | succ k ih =>
    rw [Nat.mod_pow_succ, Nat.mod_pow_succ, ih (fun i hi => h i (by omega)), h k (by omega)]

theorem hex16_length (v : Nat) : (hex16 v).length = 16 := by
  simp [hex16]

/-- Distinct 64-bit values have distinct `%016x` renderings. -/
theorem hex16_inj (a b : Nat) (ha : a < 2 ^ 64) (hb : b < 2 ^ 64)
    (h : hex16 a = hex16 b) : a = b := by
  unfold hex16 at h
  rw [List.map_inj_left] at h
  have hd : ∀ i, i < 16 → a / 16 ^ i % 16 = b / 16 ^ i % 16 := by
    intro i hi
    exact digitChar_inj _ (Nat.mod_lt _ (by decide)) _ (Nat.mod_lt _ (by decide))
      (h i (by simp [hi]))
  have hmod := mod_pow_eq_of_digits a b 16 hd
  have h16 : (16 : Nat) ^ 16 = 2 ^ 64 := by norm_num
  rw [h16, Nat.mod_eq_of_lt ha, Nat.mod_eq_of_lt hb] at hmod
  exact hmod

theorem string_append_cancel_left (p a b : String) (h : p ++ a = p ++ b) : a = b := by
  have hdata := congrArg String.data h
  rw [String.data_append, String.data_append] at hdata
  exact String.ext (List.append_cancel_left hdata)

/-- Appending to a fixed directory keeps distinct names distinct. -/
theorem pathAppend_inj (p a b : String) (h : pathAppend p a = pathAppend p b) : a = b := by
  unfold pathAppend at h
  by_cases h1 : p.data = []
  · rw [if_pos h1, if_pos h1] at h
    exact h
  · rw [if_neg h1, if_neg h1] at h
    by_cases h2 : p.data.getLast? = some '/'
    · rw [if_pos h2, if_pos h2] at h
      exact string_append_cancel_left p a b h
    · rw [if_neg h2, if_neg h2] at h
      exact string_append_cancel_left (p ++ "/") a b h

/-- The file name produced by the format string of `TraceFilePath`. -/
theorem strFormat_trace_file_name (a b c : Nat) :
    StrFormat "spoor-%016x-%016x-%016x.trace" [a, b, c] =
      String.mk ("spoor-".data ++ hex16 a ++ "-".data ++ hex16 b ++ "-".data ++ hex16 c ++
        ".trace".data) := rfl

end spoor.runtime.flush_queue

namespace spoor.runtime.flush_queue.FlushQueue

variable {Buffer : Type}

/-- Equal trace file paths within one queue force equal thread ids and equal
enqueue times, for 64-bit thread ids and signed 64-bit nanosecond counts. -/
theorem traceFilePath_eq_imp (q : FlushQueue Buffer) (e1 e2 : FlushInfo Buffer)
    (h1 : e1.thread_id < 2 ^ 64) (h2 : e2.thread_id < 2 ^ 64)
    (ht1 : -2 ^ 63 ≤ e1.flush_timestamp ∧ e1.flush_timestamp < 2 ^ 63)
    (ht2 : -2 ^ 63 ≤ e2.flush_timestamp ∧ e2.flush_timestamp < 2 ^ 63)
    (h : q.TraceFilePath e1 = q.TraceFilePath e2) :
    e1.thread_id = e2.thread_id ∧ e1.flush_timestamp = e2.flush_timestamp := by
  unfold TraceFilePath at h
  have hname := pathAppend_inj _ _ _ h
  rw [strFormat_trace_file_name, strFormat_trace_file_name] at hname
  have hchars := congrArg String.data hname
  simp only at hchars
  have hbody := List.append_cancel_right hchars
  obtain ⟨hfront, hstamp⟩ := List.append_inj' hbody
    (by rw [hex16_length, hex16_length])
  have hthread := List.append_cancel_left (List.append_cancel_right hfront)
  have hu1 : toUnsigned64 e1.flush_timestamp < 2 ^ 64 := by
    unfold toUnsigned64
    omega
  have hu2 : toUnsigned64 e2.flush_timestamp < 2 ^ 64 := by
    unfold toUnsigned64
    omega
  have hts := hex16_inj _ _ hu1 hu2 hstamp
  refine ⟨hex16_inj _ _ h1 h2 hthread, ?_⟩
  unfold toUnsigned64 at hts
  omega

/-- C23: within one session (one queue, hence one trace directory and one
session id), two entries whose 64-bit thread ids differ or whose nanosecond
enqueue times differ get different trace file paths. -/
theorem trace_file_path_injective (q : FlushQueue Buffer) (e1 e2 : FlushInfo Buffer)
    (h1 : e1.thread_id < 2 ^ 64) (h2 : e2.thread_id < 2 ^ 64)
    (ht1 : -2 ^ 63 ≤ e1.flush_timestamp ∧ e1.flush_timestamp < 2 ^ 63)
    (ht2 : -2 ^ 63 ≤ e2.flush_timestamp ∧ e2.flush_timestamp < 2 ^ 63)
    (hne : e1.thread_id ≠ e2.thread_id ∨ e1.flush_timestamp ≠ e2.flush_timestamp) :
    q.TraceFilePath e1 ≠ q.TraceFilePath e2 := by
  intro h
  obtain ⟨ha, hb⟩ := traceFilePath_eq_imp q e1 e2 h1 h2 ht1 ht2 h
  rcases hne with hne | hne
  · exact hne ha
  · exact hne hb

/-- Same thread, enqueue times 4096 and 4097: the two paths differ. -/
theorem trace_file_path_injective_witness :
    (⟨⟨"/tmp/trace", 0, 0xabc, 3⟩, [], 0, true, false, []⟩ :
        FlushQueue (List Nat)).TraceFilePath ⟨[1], 4096, 255, 3⟩ ≠
      (⟨⟨"/tmp/trace", 0, 0xabc, 3⟩, [], 0, true, false, []⟩ :
        FlushQueue (List Nat)).TraceFilePath ⟨[2], 4097, 255, 3⟩ :=
  trace_file_path_injective
    (⟨⟨"/tmp/trace", 0, 0xabc, 3⟩, [], 0, true, false, []⟩ : FlushQueue (List Nat))
    ⟨[1], 4096, 255, 3⟩ ⟨[2], 4097, 255, 3⟩ (by decide) (by decide)
    ⟨by decide, by decide⟩ ⟨by decide, by decide⟩ (Or.inr (by decide))

end spoor.runtime.flush_queue.FlushQueue

/-! ## Circular buffer: stores inside and outside the span -/

namespace spoor.runtime.buffer.UnownedBufferSlice

variable {T : Type}

/-- With the insertion iterator inside a span, the store of `Push` is in
bounds and `PushChecked` is `Push`. -/
theorem pushChecked_in_bounds (base C : Nat) (s : UnownedBufferSlice T) (item : T)
    (hb : s.buffer_ = ⟨base, C⟩) (hlo : base ≤ s.insertion_iterator_)
    (hhi : s.insertion_iterator_ < base + C) :
    s.PushChecked item = some (s.Push item) := by
  have hin : s.storeInBounds = true := by
    simp only [storeInBounds, hb, Span.begin_, Span.end_, decide_eq_true_eq]
    exact ⟨hlo, hhi⟩
  simp [PushChecked, hin]

/-- From a state inside its span of positive capacity, every `Push` of a
sequence stores in bounds. -/
theorem pushAllChecked_in_bounds (mem : Memory T) (base C : Nat) (items : List T) :
    ∀ (s : UnownedBufferSlice T),
      (s.buffer_ = ⟨base, C⟩ ∧ s.size_ ≤ C ∧ base ≤ s.insertion_iterator_ ∧
        s.insertion_iterator_ < base + C ∧
        ∀ a, (a < base ∨ base + C ≤ a) → s.memory a = mem a) →
      pushAllChecked s items = some (pushAll s items) := by
  induction items with
  | nil => intro s _; rfl
  | cons item items ih =>
    intro s h
    have hstep := step_in_bounds mem base C s (Op.push item) h
    simp only [pushAllChecked, pushChecked_in_bounds base C s item h.1 h.2.2.1 h.2.2.2.1]
    exact ih (s.Push item) hstep

/-- From a state inside its span of positive capacity, every `Push` of a
sequence of `Push` and `Clear` calls stores in bounds. -/
theorem runChecked_in_bounds (mem : Memory T) (base C : Nat) (ops : List (Op T)) :
    ∀ (s : UnownedBufferSlice T),
      (s.buffer_ = ⟨base, C⟩ ∧ s.size_ ≤ C ∧ base ≤ s.insertion_iterator_ ∧
        s.insertion_iterator_ < base + C ∧
        ∀ a, (a < base ∨ base + C ≤ a) → s.memory a = mem a) →
      runChecked s ops = some (s.run ops) := by
  induction ops with
  | nil => intro s _; rfl
  | cons op ops ih =>
    intro s h
    have hstep := step_in_bounds mem base C s op h
    have hdef : s.stepChecked op = some (s.step op) := by
      cases op with
      | push item => exact pushChecked_in_bounds base C s item h.1 h.2.2.1 h.2.2.2.1
      | clear => rfl
    simp only [runChecked, hdef]
    exact ih (s.step op) hstep

/-- For a capacity `C > 0` the pushes into a fresh slice all store inside the
span, and afterwards `Size() = min n C` and `Capacity() = C`. -/
theorem size_capacity_pos_capacity (mem : Memory T) (base C : Nat) (hC : 0 < C)
    (vs : List T) :
    pushAllChecked (ctor mem ⟨base, C⟩) vs = some (pushAll (ctor mem ⟨base, C⟩) vs) ∧
    (pushAll (ctor mem ⟨base, C⟩) vs).Size = min vs.length C ∧
    (pushAll (ctor mem ⟨base, C⟩) vs).Capacity = C := by
  have inv := afterPushes mem base C vs
  refine ⟨?_, inv.size, ?_⟩
  · exact pushAllChecked_in_bounds mem base C vs (ctor mem ⟨base, C⟩)
      ⟨rfl, Nat.zero_le _, Nat.le_refl _, by show base < base + C; omega, fun _ _ => rfl⟩
  · simp only [Capacity, inv.buffer]

/-- C2 (failing input): capacity 0 and one push, on the null span and on an
empty span at address 4.  The store of `Push` goes through `begin()` of a span
without elements, so the call has no defined result, where the claim has
`Size() = 0` and `Capacity() = 0` after it; without a push the fresh slice is
as claimed. -/
theorem first_push_at_capacity_zero_stores_out_of_bounds :
    (ctor (fun _ => (0 : Int)) ⟨0, 0⟩).Capacity = 0 ∧
    (ctor (fun _ => (0 : Int)) ⟨0, 0⟩).Size = 0 ∧
    (ctor (fun _ => (0 : Int)) ⟨0, 0⟩).storeInBounds = false ∧
    (pushAllChecked (ctor (fun _ => (0 : Int)) ⟨0, 0⟩) [7]).isNone = true ∧
    (pushAllChecked (ctor (fun _ => (0 : Int)) ⟨4, 0⟩) [7]).isNone = true := by
  decide

/-- C5 (failing input): on a fresh slice over the null span, and over an empty
span at address 4, a sequence of calls that contains a `Push` has no defined
result, because the store of `Push` goes through `begin()` of a span without
elements; `Clear` alone is harmless. -/
theorem push_or_clear_at_capacity_zero_stores_out_of_bounds :
    (runChecked (ctor (fun _ => (0 : Int)) ⟨0, 0⟩) [Op.push 7]).isNone = true ∧
    (runChecked (ctor (fun _ => (0 : Int)) ⟨0, 0⟩) [Op.clear, Op.push 7, Op.clear]).isNone =
      true ∧
    (runChecked (ctor (fun _ => (0 : Int)) ⟨4, 0⟩) [Op.push 7]).isNone = true ∧
    (runChecked (ctor (fun _ => (0 : Int)) ⟨0, 0⟩) [Op.clear]).isSome = true := by
  decide

end spoor.runtime.buffer.UnownedBufferSlice

/-! ## Flush queue: the entry left behind by the pop -/

namespace spoor.runtime.flush_queue.FlushQueue

variable {Buffer : Type}

/-- C21 (failing input): no retries configured, the entries of `a` and `b`
queued inside the horizon, and a writer that fails.  The pass hands `b` to
`Write` and the retry branch re-enqueues nothing, yet the queue afterwards
still holds the entry of `b` in its moved-from state, left at the back by the
pop; the next pass hands it to `Write` again.  When a move leaves the buffer
as it was, the queue after the pass holds the very entry that was dropped. -/
theorem dropped_entry_is_still_queued (moved : Buffer → Buffer) (a b : Buffer) :
    (Flush 3 (Enqueue 2 9 b (Enqueue 1 9 a (Run (ctor ⟨"/t", 0, 1, 0⟩ 0))))).queue_ =
      [⟨a, 1, 9, 0⟩, ⟨b, 2, 9, 0⟩] ∧
    (RunIteration moved 4 false
      (Flush 3 (Enqueue 2 9 b (Enqueue 1 9 a (Run (ctor ⟨"/t", 0, 1, 0⟩ 0)))))).written_ =
      [⟨b, 2, 9, 0⟩] ∧
    (RunIteration moved 4 false
      (Flush 3 (Enqueue 2 9 b (Enqueue 1 9 a (Run (ctor ⟨"/t", 0, 1, 0⟩ 0)))))).queue_ =
      [⟨moved b, 2, 9, 0⟩] ∧
    (runPasses moved [(4, false), (5, false)]
      (Flush 3 (Enqueue 2 9 b (Enqueue 1 9 a (Run (ctor ⟨"/t", 0, 1, 0⟩ 0)))))).written_ =
      [⟨b, 2, 9, 0⟩, ⟨moved b, 2, 9, 0⟩] ∧
    (⟨b, 2, 9, 0⟩ : FlushInfo Buffer) ∈
      (RunIteration (fun x => x) 4 false
        (Flush 3 (Enqueue 2 9 b (Enqueue 1 9 a (Run (ctor ⟨"/t", 0, 1, 0⟩ 0)))))).queue_ ∧
    (⟨b, 2, 9, 0⟩ : FlushInfo Buffer) ∈
      (RunIteration (fun x => x) 4 true
        (Flush 3 (Enqueue 2 9 b (Enqueue 1 9 a (Run (ctor ⟨"/t", 0, 1, 0⟩ 0)))))).queue_ :=
  ⟨rfl, rfl, rfl, rfl, List.mem_singleton.mpr rfl, List.mem_singleton.mpr rfl⟩

end spoor.runtime.flush_queue.FlushQueue
